import Mathlib

/-!
A shallow embedding of `kotlin-native/runtime/src/custom_alloc/cpp/MediumPage.cpp`.

A medium page is a fixed array of `CELL_COUNT` cells.  A cell is a header
(`size_`, `isAllocated_`) describing a run of `size_` storage units (header
included); the next cell lives at the cell's address plus `size_` units, so the
page is an implicit chain by address.  We model the cell array as a
`List Cell` indexed by unit offset: the cell whose header sits at unit `i` is
`cells.getD i ⟨0, false⟩`, and `Next` is `i + size`.  Entries of the list that
are not headers of the current chain are junk, exactly like the raw bytes
between headers in the C++ page.

`MEDIUM_PAGE_CELL_COUNT` is a fixed constant in the C++ code; here it appears
as `cells.length`, so every theorem is proved for all values of the constant.

The C++ loops (`Sweep`, `UpdateCurBlock`) terminate because on well-formed
pages every chain step advances by at least one unit; we render them as
fuel-indexed recursions with fuel `cells.length`, which is enough fuel for any
well-formed page (on corrupt pages the C++ loops diverge; the fueled versions
stop and the theorems below assume well-formedness wherever the loop path
matters).

The `Cell` class body and the mark primitive are not part of this excerpt;
they are modelled from the spec where indicated.
-/

namespace MediumPageModel

/-- One cell header: `size_` counts storage units including the header unit,
`isAllocated_` is the allocation flag. -/
structure Cell where
  size : Nat
  isAllocated : Bool
deriving DecidableEq, Repr

instance : Inhabited Cell := ⟨⟨0, false⟩⟩

/-- The header at unit offset `i` of the page's cell array.  Out-of-range
reads return the all-zero header (the C++ code never reads out of range on a
well-formed page). -/
def cellAt (cells : List Cell) (i : Nat) : Cell := cells.getD i ⟨0, false⟩

/-- A medium page: the cell array plus the cursor `curBlock_`, stored as the
unit offset of the cell it points to. -/
structure MediumPage where
  cells : List Cell
  curBlock : Nat
deriving DecidableEq, Repr

/-- Modelled from the spec: `Cell::TryAllocate(cellsNeeded)` (the `Cell` class
body is not part of this excerpt).  It fails with no side effect when the cell
is already allocated or its `size < cellsNeeded`; otherwise it marks the cell
allocated and, when `size > cellsNeeded`, shrinks it to `cellsNeeded` and
writes a new free header of the remaining size immediately after it.  On
success it returns the payload start, one unit past the header. -/
def cellTryAllocate (cells : List Cell) (i cellsNeeded : Nat) :
    Option Nat × List Cell :=
  if (cellAt cells i).isAllocated = true ∨ (cellAt cells i).size < cellsNeeded then
    (none, cells)
  else if cellsNeeded < (cellAt cells i).size then
    (some (i + 1), (cells.set i ⟨cellsNeeded, true⟩).set (i + cellsNeeded)
      ⟨(cellAt cells i).size - cellsNeeded, false⟩)
  else (some (i + 1), cells.set i ⟨cellsNeeded, true⟩)

/-- Modelled from the spec: `Cell::Deallocate` flips `isAllocated_` to false,
keeps the size, and never merges. -/
def cellDeallocate (cells : List Cell) (i : Nat) : List Cell :=
  cells.set i ⟨(cellAt cells i).size, false⟩

/-- `MediumPage::Create` plus the private constructor.  The
`RuntimeAssert(cellCount < MEDIUM_PAGE_CELL_COUNT)` abort is modelled as
`none`.  The constructor ignores its argument: it sets `cells_[0] = Cell(0)`
(the sentinel), `cells_[1] = Cell(CELL_COUNT - 1)` and `curBlock_ = cells_`.
The raw memory obtained from `SafeAlloc` is modelled as all-zero headers. -/
def MediumPage.create (CELL_COUNT cellCount : Nat) : Option MediumPage :=
  if cellCount < CELL_COUNT then
    some { cells := ((List.replicate CELL_COUNT (⟨0, false⟩ : Cell)).set 0
                      ⟨0, false⟩).set 1 ⟨CELL_COUNT - 1, false⟩,
           curBlock := 0 }
  else none

/-- The body of both `for` loops of `MediumPage::UpdateCurBlock`: walk the
chain from `block` until the pointer equals `stop`, tracking the largest free
cell seen (`maxIdx`, strict comparison), and return early with the first free
cell that also fits `cellsNeeded`.  Returns `(some found, found)` on the early
return and `(none, final maxIdx)` when the walk reaches `stop` (or runs out of
fuel, which cannot happen on a well-formed page with fuel `cells.length`). -/
def updateLoop (cells : List Cell) (stop cellsNeeded : Nat) :
    Nat → Nat → Nat → Option Nat × Nat
  | _, maxIdx, 0 => (none, maxIdx)
  | block, maxIdx, fuel + 1 =>
    if block = stop then (none, maxIdx)
    else if (cellAt cells block).isAllocated = false ∧
            (cellAt cells maxIdx).size < (cellAt cells block).size then
      if cellsNeeded ≤ (cellAt cells block).size then (some block, block)
      else updateLoop cells stop cellsNeeded (block + (cellAt cells block).size) block fuel
    else updateLoop cells stop cellsNeeded (block + (cellAt cells block).size) maxIdx fuel

/-- `MediumPage::UpdateCurBlock(cellsNeeded)`: if the cursor is the sentinel,
start from cell 1; scan forward to the page end, then wrap from cell 1 up to
the (adjusted) starting cursor; every exit path assigns `curBlock_`. -/
def MediumPage.updateCurBlock (p : MediumPage) (cellsNeeded : Nat) : MediumPage :=
  let cur := if p.curBlock = 0 then 1 else p.curBlock
  match updateLoop p.cells p.cells.length cellsNeeded cur 0 p.cells.length with
  | (some found, _) => { p with curBlock := found }
  | (none, max1) =>
    match updateLoop p.cells cur cellsNeeded 1 max1 p.cells.length with
    | (some found, _) => { p with curBlock := found }
    | (none, max2) => { p with curBlock := max2 }

/-- `MediumPage::TryAllocate(blockSize)`: `cellsNeeded = blockSize + 1` (the
header unit), fast path at the cursor, then one cursor reposition and one
retry. -/
def MediumPage.tryAllocate (p : MediumPage) (blockSize : Nat) :
    Option Nat × MediumPage :=
  let cellsNeeded := blockSize + 1
  match cellTryAllocate p.cells p.curBlock cellsNeeded with
  | (some a, cs) => (some a, { p with cells := cs })
  | (none, _) =>
    let p' := p.updateCurBlock cellsNeeded
    match cellTryAllocate p'.cells p'.curBlock cellsNeeded with
    | (some a, cs) => (some a, { p' with cells := cs })
    | (none, _) => (none, p')

/-- Pass 1 of `MediumPage::Sweep`: walk the chain from cell 1 to the page end;
for each allocated cell query the mark primitive on its payload.
`TryResetMark` (modelled from the spec: atomically test-and-clear the
reachability mark of a payload, returning the prior state) is rendered as the
map `marks` from the cell's unit offset to its mark bit, cleared as it is
queried.  A marked cell stays allocated and sets `alive`; an unmarked one is
deallocated (`Deallocate` preserves the size, so stepping by the cell's size
before or after it is the same). -/
def sweepReclaim :
    List Cell → (Nat → Bool) → Nat → Bool → Nat → List Cell × (Nat → Bool) × Bool
  | cells, marks, _, alive, 0 => (cells, marks, alive)
  | cells, marks, block, alive, fuel + 1 =>
    if block = cells.length then (cells, marks, alive)
    else if (cellAt cells block).isAllocated = true then
      if marks block = true then
        sweepReclaim cells (fun j => if j = block then false else marks j)
          (block + (cellAt cells block).size) true fuel
      else
        sweepReclaim (cellDeallocate cells block) marks
          (block + (cellAt cells block).size) alive fuel
    else sweepReclaim cells marks (block + (cellAt cells block).size) alive fuel

/-- The inner `while` of `MediumPage::Sweep`'s second pass: while the next cell
exists and is free, add its size into this cell (the absorbed header becomes
junk; only this cell's header is written). -/
def absorb : List Cell → Nat → Nat → List Cell
  | cells, _, 0 => cells
  | cells, block, fuel + 1 =>
    if block + (cellAt cells block).size ≠ cells.length ∧
       (cellAt cells (block + (cellAt cells block).size)).isAllocated = false then
      absorb (cells.set block
        ⟨(cellAt cells block).size +
            (cellAt cells (block + (cellAt cells block).size)).size,
          (cellAt cells block).isAllocated⟩) block fuel
    else cells

/-- Pass 2 of `MediumPage::Sweep`: walk the chain again; each free cell
greedily absorbs the free cells following it; track the largest free cell
(strict comparison, `maxIdx` starts at the sentinel 0). -/
def sweepCoalesce : List Cell → Nat → Nat → Nat → List Cell × Nat
  | cells, _, maxIdx, 0 => (cells, maxIdx)
  | cells, block, maxIdx, fuel + 1 =>
    if block = cells.length then (cells, maxIdx)
    else if (cellAt cells block).isAllocated = true then
      sweepCoalesce cells (block + (cellAt cells block).size) maxIdx fuel
    else
      sweepCoalesce (absorb cells block cells.length)
        (block + (cellAt (absorb cells block cells.length) block).size)
        (if (cellAt (absorb cells block cells.length) maxIdx).size <
            (cellAt (absorb cells block cells.length) block).size
         then block else maxIdx) fuel

/-- `MediumPage::Sweep()`: reclaim pass, then coalesce pass, then
`curBlock_ = maxBlock`.  Returns the new page, the updated mark map, and the
`alive` boolean. -/
def MediumPage.sweep (p : MediumPage) (marks : Nat → Bool) :
    MediumPage × (Nat → Bool) × Bool :=
  let r1 := sweepReclaim p.cells marks 1 false p.cells.length
  let r2 := sweepCoalesce r1.1 1 0 r1.1.length
  ({ cells := r2.1, curBlock := r2.2 }, r1.2.1, r1.2.2)

/-- The loop of `MediumPage::CheckInvariants`: walking from `cur`, fail when
`Next` does not strictly advance or overshoots the page end, succeed when it
lands exactly on the end.  The C++ loop always terminates within
`cells.length` steps because each iteration either returns or strictly
advances inside the page, so fuel `cells.length` is faithful. -/
def checkFrom (cells : List Cell) : Nat → Nat → Bool
  | _, 0 => false
  | cur, fuel + 1 =>
    if cur + (cellAt cells cur).size ≤ cur then false
    else if cells.length < cur + (cellAt cells cur).size then false
    else if cur + (cellAt cells cur).size = cells.length then true
    else checkFrom cells (cur + (cellAt cells cur).size) fuel

/-- `MediumPage::CheckInvariants()`: the cursor is inside the page and the
chain from cell 1 is strictly increasing and lands exactly on the page end. -/
def MediumPage.checkInvariants (p : MediumPage) : Bool :=
  decide (p.curBlock < p.cells.length) && checkFrom p.cells 1 p.cells.length

/-- The unit offsets of the chain headers starting at `cur` (the list of cells
`CheckInvariants` and the sweep loops walk).  A stuck header (size 0) ends the
list; on a well-formed page fuel `cells.length` always suffices. -/
def chainIdxs (cells : List Cell) : Nat → Nat → List Nat
  | _, 0 => []
  | cur, fuel + 1 =>
    if cur < cells.length then
      if 1 ≤ (cellAt cells cur).size then
        cur :: chainIdxs cells (cur + (cellAt cells cur).size) fuel
      else [cur]
    else []

/-- The chain of the page starting at offset `i`, with canonical fuel. -/
def chain (cells : List Cell) (i : Nat) : List Nat := chainIdxs cells i cells.length

/-- The unit offsets visited by a `for (block = cur; block != stop;
block = block->Next())` loop, with fuel. -/
def walkIdxs (cells : List Cell) (stop : Nat) : Nat → Nat → List Nat
  | _, 0 => []
  | cur, fuel + 1 =>
    if cur = stop then []
    else cur :: walkIdxs cells stop (cur + (cellAt cells cur).size) fuel

/-- The scan order of `UpdateCurBlock`: forward from the (sentinel-adjusted)
cursor to the page end, then from cell 1 up to that cursor. -/
def MediumPage.scanOrder (p : MediumPage) : List Nat :=
  let cur := if p.curBlock = 0 then 1 else p.curBlock
  walkIdxs p.cells p.cells.length cur p.cells.length ++
    walkIdxs p.cells cur 1 p.cells.length

/-- `j` is a free cell that fits a request of `cellsNeeded` cells. -/
def isFit (cells : List Cell) (cellsNeeded j : Nat) : Bool :=
  (cellAt cells j).isAllocated = false ∧ cellsNeeded ≤ (cellAt cells j).size

/-- One step of the `maxBlock` tracking of `UpdateCurBlock` and of `Sweep`'s
second pass: a later free cell replaces the current maximum only when strictly
larger. -/
def betterFree (cells : List Cell) (m j : Nat) : Nat :=
  if (cellAt cells j).isAllocated = false ∧ (cellAt cells m).size < (cellAt cells j).size
  then j else m

/-- The reachable-state invariant: the sentinel header at offset 0 is intact,
the chain from cell 1 is well-formed (what `CheckInvariants` walks), and the
cursor is the sentinel or a chain cell. -/
def Inv (p : MediumPage) : Prop :=
  cellAt p.cells 0 = ⟨0, false⟩ ∧
  checkFrom p.cells 1 p.cells.length = true ∧
  (p.curBlock = 0 ∨ p.curBlock ∈ chain p.cells 1)

instance (p : MediumPage) : Decidable (Inv p) := by
  unfold Inv
  exact inferInstance

/-- A public mutating operation on a page: `TryAllocate` with a block size, or
`Sweep` under a mark state. -/
inductive PageOp where
  | tryAllocate (blockSize : Nat)
  | sweep (marks : Nat → Bool)

/-- Apply one public operation to a page, keeping the page state. -/
def applyOp (p : MediumPage) : PageOp → MediumPage
  | .tryAllocate b => (p.tryAllocate b).2
  | .sweep m => (p.sweep m).1

/-- Run a sequence of public operations from a starting page. -/
def runOps (p : MediumPage) (ops : List PageOp) : MediumPage :=
  ops.foldl applyOp p

/-! ### Basic facts about `cellAt` and `List.set` -/

theorem cellAt_set_self {cells : List Cell} {i : Nat} (c : Cell) (h : i < cells.length) :
    cellAt (cells.set i c) i = c := by
  simp [cellAt, List.getD, List.getElem?_set_eq_of_lt c h]

theorem cellAt_set_ne {cells : List Cell} {i j : Nat} (c : Cell) (h : j ≠ i) :
    cellAt (cells.set i c) j = cellAt cells j := by
  simp [cellAt, List.getD, List.getElem?_set_ne (Ne.symm h)]

theorem cellAt_set_oob {cells : List Cell} {i : Nat} (c : Cell) (h : cells.length ≤ i) :
    cells.set i c = cells :=
  List.set_eq_of_length_le h

theorem cellAt_set (cells : List Cell) (i j : Nat) (c : Cell) :
    cellAt (cells.set i c) j =
      if j = i ∧ i < cells.length then c else cellAt cells j := by
  by_cases hj : j = i
  · subst hj
    by_cases h : j < cells.length
    · simp [cellAt_set_self c h, h]
    · rw [cellAt_set_oob c (Nat.le_of_not_lt h)]
      simp [h]
  · simp [cellAt_set_ne c hj, hj]

theorem cellDeallocate_length (cells : List Cell) (i : Nat) :
    (cellDeallocate cells i).length = cells.length := by
  simp [cellDeallocate]

theorem cellAt_deallocate (cells : List Cell) (i j : Nat) :
    cellAt (cellDeallocate cells i) j =
      if j = i ∧ i < cells.length then ⟨(cellAt cells i).size, false⟩
      else cellAt cells j := by
  simp [cellDeallocate, cellAt_set]

theorem cellAt_deallocate_size (cells : List Cell) (i j : Nat) :
    (cellAt (cellDeallocate cells i) j).size = (cellAt cells j).size := by
  rw [cellAt_deallocate]
  by_cases h : j = i ∧ i < cells.length
  · rcases h with ⟨rfl, h⟩
    simp [h]
  · simp [h]

/-! ### Unfolding equations and congruence for the chain walks -/

theorem checkFrom_succ (cells : List Cell) (cur f : Nat) :
    checkFrom cells cur (f + 1) =
      if cur + (cellAt cells cur).size ≤ cur then false
      else if cells.length < cur + (cellAt cells cur).size then false
      else if cur + (cellAt cells cur).size = cells.length then true
      else checkFrom cells (cur + (cellAt cells cur).size) f := rfl

theorem chainIdxs_succ (cells : List Cell) (cur f : Nat) :
    chainIdxs cells cur (f + 1) =
      if cur < cells.length then
        if 1 ≤ (cellAt cells cur).size then
          cur :: chainIdxs cells (cur + (cellAt cells cur).size) f
        else [cur]
      else [] := rfl

theorem walkIdxs_succ (cells : List Cell) (stop cur f : Nat) :
    walkIdxs cells stop cur (f + 1) =
      if cur = stop then []
      else cur :: walkIdxs cells stop (cur + (cellAt cells cur).size) f := rfl

theorem checkFrom_congr {cells cells' : List Cell}
    (hlen : cells'.length = cells.length)
    (hsz : ∀ k, (cellAt cells' k).size = (cellAt cells k).size) :
    ∀ fuel cur, checkFrom cells' cur fuel = checkFrom cells cur fuel := by
  intro fuel
  induction fuel with
  | zero => intro _; rfl
  | succ f ih =>
    intro cur
    rw [checkFrom_succ, checkFrom_succ, hsz, hlen]
    split_ifs
    · rfl
    · rfl
    · rfl
    · exact ih _

theorem chainIdxs_congr {cells cells' : List Cell}
    (hlen : cells'.length = cells.length)
    (hsz : ∀ k, (cellAt cells' k).size = (cellAt cells k).size) :
    ∀ fuel cur, chainIdxs cells' cur fuel = chainIdxs cells cur fuel := by
  intro fuel
  induction fuel with
  | zero => intro _; rfl
  | succ f ih =>
    intro cur
    rw [chainIdxs_succ, chainIdxs_succ, hsz, hlen]
    split_ifs
    · rw [ih]
    · rfl
    · rfl

theorem walkIdxs_congr {cells cells' : List Cell}
    (hsz : ∀ k, (cellAt cells' k).size = (cellAt cells k).size) :
    ∀ fuel stop cur, walkIdxs cells' stop cur fuel = walkIdxs cells stop cur fuel := by
  intro fuel
  induction fuel with
  | zero => intro _ _; rfl
  | succ f ih =>
    intro stop cur
    rw [walkIdxs_succ, walkIdxs_succ, hsz]
    split_ifs
    · rfl
    · rw [ih]

/-! ### Structure of a well-formed chain -/

theorem chainIdxs_mem_ge {cells : List Cell} :
    ∀ {fuel cur k}, k ∈ chainIdxs cells cur fuel → cur ≤ k := by
  intro fuel
  induction fuel with
  | zero => intro cur k h; simp [chainIdxs] at h
  | succ f ih =>
    intro cur k h
    rw [chainIdxs_succ] at h
    split_ifs at h
    · rcases List.mem_cons.mp h with rfl | h
      · exact Nat.le_refl _
      · exact Nat.le_trans (Nat.le_add_right _ _) (ih h)
    · rw [List.mem_singleton.mp h]
    · simp at h

theorem chainIdxs_mem_lt {cells : List Cell} :
    ∀ {fuel cur k}, k ∈ chainIdxs cells cur fuel → k < cells.length := by
  intro fuel
  induction fuel with
  | zero => intro cur k h; simp [chainIdxs] at h
  | succ f ih =>
    intro cur k h
    rw [chainIdxs_succ] at h
    split_ifs at h with h1
    · rcases List.mem_cons.mp h with rfl | h
      · exact h1
      · exact ih h
    · rw [List.mem_singleton.mp h]; exact h1
    · simp at h

theorem checkFrom_pos {cells : List Cell} {cur f : Nat}
    (h : checkFrom cells cur f = true) : 0 < f := by
  cases f
  · simp [checkFrom] at h
  · exact Nat.succ_pos _

theorem checkFrom_true_iff {cells : List Cell} {cur f : Nat} :
    checkFrom cells cur (f + 1) = true ↔
      cur < cur + (cellAt cells cur).size ∧
      cur + (cellAt cells cur).size ≤ cells.length ∧
      (cur + (cellAt cells cur).size = cells.length ∨
        checkFrom cells (cur + (cellAt cells cur).size) f = true) := by
  rw [checkFrom_succ]
  split_ifs with h1 h2 h3
  · constructor
    · intro h; exact absurd h (by simp)
    · rintro ⟨hc, -, -⟩; omega
  · constructor
    · intro h; exact absurd h (by simp)
    · rintro ⟨-, hc, -⟩; omega
  · constructor
    · intro _; exact ⟨Nat.lt_of_not_le h1, Nat.le_of_not_lt h2, Or.inl h3⟩
    · intro _; rfl
  · constructor
    · intro h; exact ⟨Nat.lt_of_not_le h1, Nat.le_of_not_lt h2, Or.inr h⟩
    · rintro ⟨-, -, hc | hc⟩
      · exact absurd hc h3
      · exact hc

theorem checkFrom_size_pos {cells : List Cell} {cur f : Nat}
    (h : checkFrom cells cur f = true) : 1 ≤ (cellAt cells cur).size := by
  rcases Nat.exists_eq_add_of_lt (checkFrom_pos h) with ⟨g, rfl⟩
  rw [Nat.zero_add] at h
  rcases checkFrom_true_iff.mp h with ⟨hc, -, -⟩
  omega

theorem checkFrom_next_le {cells : List Cell} {cur f : Nat}
    (h : checkFrom cells cur f = true) :
    cur + (cellAt cells cur).size ≤ cells.length := by
  rcases Nat.exists_eq_add_of_lt (checkFrom_pos h) with ⟨g, rfl⟩
  rw [Nat.zero_add] at h
  exact (checkFrom_true_iff.mp h).2.1

theorem checkFrom_true_lt {cells : List Cell} {cur f : Nat}
    (h : checkFrom cells cur f = true) : cur < cells.length := by
  have h1 := checkFrom_size_pos h
  have h2 := checkFrom_next_le h
  omega

theorem checkFrom_mono {cells : List Cell} :
    ∀ {f f' cur}, checkFrom cells cur f = true → f ≤ f' →
      checkFrom cells cur f' = true := by
  intro f
  induction f with
  | zero => intro f' cur h _; simp [checkFrom] at h
  | succ g ih =>
    intro f' cur h hf
    rcases Nat.exists_eq_add_of_lt (Nat.lt_of_lt_of_le (Nat.succ_pos g) hf) with ⟨g', rfl⟩
    rw [Nat.zero_add] at *
    rcases checkFrom_true_iff.mp h with ⟨h1, h2, h3 | h3⟩
    · exact checkFrom_true_iff.mpr ⟨h1, h2, Or.inl h3⟩
    · exact checkFrom_true_iff.mpr ⟨h1, h2, Or.inr (ih h3 (Nat.le_of_succ_le_succ hf))⟩

theorem checkFrom_bound {cells : List Cell} :
    ∀ {f cur}, checkFrom cells cur f = true →
      checkFrom cells cur (cells.length - cur) = true := by
  intro f
  induction f with
  | zero => intro cur h; simp [checkFrom] at h
  | succ g ih =>
    intro cur h
    rcases checkFrom_true_iff.mp h with ⟨h1, h2, h3 | h3⟩
    · have hlen : cells.length - cur = (cells.length - cur - 1) + 1 := by omega
      rw [hlen]
      exact checkFrom_true_iff.mpr ⟨h1, h2, Or.inl h3⟩
    · have hrec := ih h3
      have hnl : cur + (cellAt cells cur).size < cells.length :=
        Nat.lt_of_le_of_ne h2 (fun hc => by
          rw [hc] at h3
          have := checkFrom_true_lt h3
          omega)
      have hlen : cells.length - cur = (cells.length - cur - 1) + 1 := by omega
      rw [hlen]
      refine checkFrom_true_iff.mpr ⟨h1, h2, Or.inr ?_⟩
      exact checkFrom_mono hrec (by omega)

theorem chainIdxs_fuel_eq {cells : List Cell} :
    ∀ {f f' cur}, checkFrom cells cur f = true → f ≤ f' →
      chainIdxs cells cur f' = chainIdxs cells cur f := by
  intro f
  induction f with
  | zero => intro f' cur h _; simp [checkFrom] at h
  | succ g ih =>
    intro f' cur h hf
    rcases Nat.exists_eq_add_of_lt (Nat.lt_of_lt_of_le (Nat.succ_pos g) hf) with ⟨g', rfl⟩
    rw [Nat.zero_add] at *
    have hlt : cur < cells.length := checkFrom_true_lt h
    have hsz : 1 ≤ (cellAt cells cur).size := checkFrom_size_pos h
    rw [chainIdxs_succ, chainIdxs_succ, if_pos hlt, if_pos hlt, if_pos hsz, if_pos hsz]
    rcases checkFrom_true_iff.mp h with ⟨-, -, h3 | h3⟩
    · rw [h3]
      cases g' <;> cases g <;> simp [chainIdxs]
    · rw [ih h3 (Nat.le_of_succ_le_succ hf)]

theorem chainIdxs_self_mem {cells : List Cell} {cur f : Nat}
    (h : checkFrom cells cur f = true) : cur ∈ chainIdxs cells cur f := by
  rcases Nat.exists_eq_add_of_lt (checkFrom_pos h) with ⟨g, rfl⟩
  rw [Nat.zero_add] at *
  rw [chainIdxs_succ, if_pos (checkFrom_true_lt h), if_pos (checkFrom_size_pos h)]
  exact List.mem_cons_self _ _

theorem chain_suffix_valid {cells : List Cell} :
    ∀ {f cur k}, checkFrom cells cur f = true → k ∈ chainIdxs cells cur f →
      checkFrom cells k f = true := by
  intro f
  induction f with
  | zero => intro cur k h _; simp [checkFrom] at h
  | succ g ih =>
    intro cur k h hk
    rw [chainIdxs_succ, if_pos (checkFrom_true_lt h), if_pos (checkFrom_size_pos h)] at hk
    rcases List.mem_cons.mp hk with rfl | hk
    · exact h
    · rcases checkFrom_true_iff.mp h with ⟨-, -, h3 | h3⟩
      · rw [h3] at hk
        cases g <;> simp [chainIdxs] at hk
      · exact checkFrom_mono (ih h3 hk) (Nat.le_succ g)

theorem chain_closure {cells : List Cell} :
    ∀ {f cur k}, checkFrom cells cur f = true → k ∈ chainIdxs cells cur f →
      k + (cellAt cells k).size = cells.length ∨
        k + (cellAt cells k).size ∈ chainIdxs cells cur f := by
  intro f
  induction f with
  | zero => intro cur k h _; simp [checkFrom] at h
  | succ g ih =>
    intro cur k h hk
    have hlt : cur < cells.length := checkFrom_true_lt h
    have hsz : 1 ≤ (cellAt cells cur).size := checkFrom_size_pos h
    rw [chainIdxs_succ, if_pos hlt, if_pos hsz] at hk ⊢
    rcases List.mem_cons.mp hk with rfl | hk
    · rcases checkFrom_true_iff.mp h with ⟨-, -, h3 | h3⟩
      · exact Or.inl h3
      · exact Or.inr (List.mem_cons_of_mem _ (chainIdxs_self_mem h3))
    · rcases checkFrom_true_iff.mp h with ⟨-, -, h3 | h3⟩
      · rw [h3] at hk
        cases g <;> simp [chainIdxs] at hk
      · rcases ih h3 hk with hc | hc
        · exact Or.inl hc
        · exact Or.inr (List.mem_cons_of_mem _ hc)

theorem chain_mem_size_pos {cells : List Cell} {f cur k : Nat}
    (h : checkFrom cells cur f = true) (hk : k ∈ chainIdxs cells cur f) :
    1 ≤ (cellAt cells k).size :=
  checkFrom_size_pos (chain_suffix_valid h hk)

theorem chain_next_ge {cells : List Cell} :
    ∀ {f cur k l}, k ∈ chainIdxs cells cur f → l ∈ chainIdxs cells cur f →
      k < l → k + (cellAt cells k).size ≤ l := by
  intro f
  induction f with
  | zero => intro cur k l hk _ _; simp [chainIdxs] at hk
  | succ g ih =>
    intro cur k l hk hl hkl
    rw [chainIdxs_succ] at hk hl
    split_ifs at hk hl with h1 h2
    · rcases List.mem_cons.mp hk with rfl | hk
      · rcases List.mem_cons.mp hl with rfl | hl
        · omega
        · exact chainIdxs_mem_ge hl
      · rcases List.mem_cons.mp hl with rfl | hl
        · have := chainIdxs_mem_ge hk
          omega
        · exact ih hk hl hkl
    · rw [List.mem_singleton.mp hk, List.mem_singleton.mp hl] at hkl
      omega
    · simp at hk

/-! ### Unfolding and plumbing for `TryAllocate` and `UpdateCurBlock` -/

theorem tryAllocate_eq (p : MediumPage) (b : Nat) :
    p.tryAllocate b =
      match cellTryAllocate p.cells p.curBlock (b + 1) with
      | (some a, cs) => (some a, { p with cells := cs })
      | (none, _) =>
        match cellTryAllocate (p.updateCurBlock (b + 1)).cells
            (p.updateCurBlock (b + 1)).curBlock (b + 1) with
        | (some a, cs) => (some a, { p.updateCurBlock (b + 1) with cells := cs })
        | (none, _) => (none, p.updateCurBlock (b + 1)) := rfl

theorem updateCurBlock_cells (p : MediumPage) (n : Nat) :
    (p.updateCurBlock n).cells = p.cells := by
  simp only [MediumPage.updateCurBlock]
  split
  · rfl
  · split <;> rfl

theorem cellTryAllocate_none_iff (cells : List Cell) (i n : Nat) :
    (cellTryAllocate cells i n).1 = none ↔
      ((cellAt cells i).isAllocated = true ∨ (cellAt cells i).size < n) := by
  unfold cellTryAllocate
  split_ifs with h1 h2 <;> simp [h1]

theorem cellTryAllocate_none_cells {cells : List Cell} {i n : Nat}
    (h : (cellTryAllocate cells i n).1 = none) :
    (cellTryAllocate cells i n).2 = cells := by
  unfold cellTryAllocate at h ⊢
  split_ifs at h ⊢ <;> simp_all

/-- C4 (counterexample to the claim as stated): on the two-cell page with an
empty free cell the call `TryAllocate 5` fails and yet the page state is not
unchanged — the cursor moves from the sentinel to cell 1. -/
theorem tryAllocate_fail_not_unchanged :
    ((⟨[⟨0, false⟩, ⟨1, false⟩], 0⟩ : MediumPage).tryAllocate 5).1 = none ∧
    ((⟨[⟨0, false⟩, ⟨1, false⟩], 0⟩ : MediumPage).tryAllocate 5).2 ≠
      (⟨[⟨0, false⟩, ⟨1, false⟩], 0⟩ : MediumPage) := by decide

/-- C4 (amended): when `TryAllocate` fails it performs no partial mutation of
the cell array — every cell is exactly as before; only the cursor may have
been repositioned by the `UpdateCurBlock` fallback. -/
theorem tryAllocate_fail_cells_unchanged (p : MediumPage) (blockSize : Nat)
    (h : (p.tryAllocate blockSize).1 = none) :
    (p.tryAllocate blockSize).2.cells = p.cells := by
  rw [tryAllocate_eq] at h ⊢
  rcases h1 : cellTryAllocate p.cells p.curBlock (blockSize + 1) with ⟨o1, cs1⟩
  rw [h1] at h
  cases o1 with
  | some a => simp at h
  | none =>
    rcases h2 : cellTryAllocate (p.updateCurBlock (blockSize + 1)).cells
        (p.updateCurBlock (blockSize + 1)).curBlock (blockSize + 1) with ⟨o2, cs2⟩
    rw [h2] at h
    cases o2 with
    | some a => simp at h
    | none => exact updateCurBlock_cells p (blockSize + 1)

/-- C4 witness. -/
theorem tryAllocate_fail_cells_unchanged_witness :
    (((⟨[⟨0, false⟩, ⟨1, false⟩], 0⟩ : MediumPage).tryAllocate 5).1 = none) ∧
    ((⟨[⟨0, false⟩, ⟨1, false⟩], 0⟩ : MediumPage).tryAllocate 5).2.cells =
      [⟨0, false⟩, ⟨1, false⟩] :=
  ⟨by decide, tryAllocate_fail_cells_unchanged ⟨[⟨0, false⟩, ⟨1, false⟩], 0⟩ 5 (by decide)⟩

/-! ### C8, C9: `Create` -/

/-- A page whose cell 1 spans everything up to the page end has the
one-element chain `[1]`. -/
theorem chain_single (cells : List Cell) (h1 : 1 < cells.length)
    (hc : (cellAt cells 1).size = cells.length - 1) :
    chain cells 1 = [1] := by
  rcases Nat.exists_eq_add_of_le' (show 2 ≤ cells.length by omega) with ⟨g, hg⟩
  unfold chain
  rw [hg, show g + 2 = (g + 1) + 1 from rfl, chainIdxs_succ]
  rw [if_pos (by omega), if_pos (by rw [hc]; omega), hc]
  rw [show 1 + (cells.length - 1) = cells.length by omega, hg, chainIdxs_succ]
  rw [if_neg (by omega)]

/-- C8: `Create(cellCount)` aborts (returns `none`) iff
`cellCount ≥ CELL_COUNT`; for every `cellCount < CELL_COUNT` it produces a
page whose cell 0 is the zero-size sentinel, whose sole free cell is cell 1
with size `CELL_COUNT - 1` (the chain from cell 1 is exactly `[1]`), and
whose cursor is cell 0. -/
theorem create_spec (CELL_COUNT cellCount : Nat) (h2 : 2 ≤ CELL_COUNT) :
    (MediumPage.create CELL_COUNT cellCount = none ↔ CELL_COUNT ≤ cellCount) ∧
    (∀ q, MediumPage.create CELL_COUNT cellCount = some q →
      cellAt q.cells 0 = ⟨0, false⟩ ∧
      cellAt q.cells 1 = ⟨CELL_COUNT - 1, false⟩ ∧
      q.curBlock = 0 ∧
      chain q.cells 1 = [1]) := by
  constructor
  · unfold MediumPage.create
    split_ifs with h
    · simp
      omega
    · simp
      omega
  · intro q hq
    unfold MediumPage.create at hq
    split_ifs at hq with h
    · have hq' := (Option.some_inj.mp hq).symm
      subst hq'
      have hlen : (((List.replicate CELL_COUNT (⟨0, false⟩ : Cell)).set 0
          ⟨0, false⟩).set 1 ⟨CELL_COUNT - 1, false⟩).length = CELL_COUNT := by
        simp
      refine ⟨?_, ?_, rfl, ?_⟩
      · rw [cellAt_set_ne _ (by omega), cellAt_set_self]
        simp
        omega
      · rw [cellAt_set_self]
        rw [List.length_set, List.length_replicate]
        omega
      · have h1 : cellAt (((List.replicate CELL_COUNT (⟨0, false⟩ : Cell)).set 0
            ⟨0, false⟩).set 1 ⟨CELL_COUNT - 1, false⟩) 1 = ⟨CELL_COUNT - 1, false⟩ := by
          rw [cellAt_set_self]
          rw [List.length_set, List.length_replicate]
          omega
        refine chain_single _ (by rw [hlen]; omega) ?_
        rw [h1, hlen]

/-- C8 witness (at `CELL_COUNT = 16`, `cellCount = 3`). -/
theorem create_spec_witness :
    (2 ≤ 16) ∧
    ((MediumPage.create 16 3 = none ↔ 16 ≤ 3) ∧
     (∀ q, MediumPage.create 16 3 = some q →
       cellAt q.cells 0 = ⟨0, false⟩ ∧
       cellAt q.cells 1 = ⟨15, false⟩ ∧
       q.curBlock = 0 ∧
       chain q.cells 1 = [1])) :=
  ⟨by decide, create_spec 16 3 (by decide)⟩

/-- C9: the `cellCount` argument of `Create` has no effect on the produced
page beyond the abort check — any two in-range arguments produce identical
pages. -/
theorem create_ignores_cellCount (CELL_COUNT c1 c2 : Nat)
    (h1 : c1 < CELL_COUNT) (h2 : c2 < CELL_COUNT) :
    MediumPage.create CELL_COUNT c1 = MediumPage.create CELL_COUNT c2 := by
  unfold MediumPage.create
  rw [if_pos h1, if_pos h2]

/-- C9 witness (at `CELL_COUNT = 16`, arguments 0 and 15). -/
theorem create_ignores_cellCount_witness :
    (0 < 16) ∧ (15 < 16) ∧ MediumPage.create 16 0 = MediumPage.create 16 15 :=
  ⟨by decide, by decide, create_ignores_cellCount 16 0 15 (by decide) (by decide)⟩

/-! ### Unfolding equations for the loop bodies -/

theorem updateLoop_succ (cells : List Cell) (stop n block maxIdx f : Nat) :
    updateLoop cells stop n block maxIdx (f + 1) =
      if block = stop then (none, maxIdx)
      else if (cellAt cells block).isAllocated = false ∧
              (cellAt cells maxIdx).size < (cellAt cells block).size then
        if n ≤ (cellAt cells block).size then (some block, block)
        else updateLoop cells stop n (block + (cellAt cells block).size) block f
      else updateLoop cells stop n (block + (cellAt cells block).size) maxIdx f := rfl

theorem sweepReclaim_succ (cells : List Cell) (marks : Nat → Bool) (block : Nat)
    (alive : Bool) (f : Nat) :
    sweepReclaim cells marks block alive (f + 1) =
      if block = cells.length then (cells, marks, alive)
      else if (cellAt cells block).isAllocated = true then
        if marks block = true then
          sweepReclaim cells (fun j => if j = block then false else marks j)
            (block + (cellAt cells block).size) true f
        else
          sweepReclaim (cellDeallocate cells block) marks
            (block + (cellAt cells block).size) alive f
      else sweepReclaim cells marks (block + (cellAt cells block).size) alive f := rfl

theorem absorb_succ (cells : List Cell) (block f : Nat) :
    absorb cells block (f + 1) =
      if block + (cellAt cells block).size ≠ cells.length ∧
         (cellAt cells (block + (cellAt cells block).size)).isAllocated = false then
        absorb (cells.set block
          ⟨(cellAt cells block).size +
              (cellAt cells (block + (cellAt cells block).size)).size,
            (cellAt cells block).isAllocated⟩) block f
      else cells := rfl

theorem sweepCoalesce_succ (cells : List Cell) (block maxIdx f : Nat) :
    sweepCoalesce cells block maxIdx (f + 1) =
      if block = cells.length then (cells, maxIdx)
      else if (cellAt cells block).isAllocated = true then
        sweepCoalesce cells (block + (cellAt cells block).size) maxIdx f
      else
        sweepCoalesce (absorb cells block cells.length)
          (block + (cellAt (absorb cells block cells.length) block).size)
          (if (cellAt (absorb cells block cells.length) maxIdx).size <
              (cellAt (absorb cells block cells.length) block).size
           then block else maxIdx) f := rfl

/-! ### Lengths and allocation flags through `Sweep`'s second pass -/

theorem absorb_length : ∀ {fuel : Nat} (cells : List Cell) (block : Nat),
    (absorb cells block fuel).length = cells.length := by
  intro fuel
  induction fuel with
  | zero => intro cells block; rfl
  | succ f ih =>
    intro cells block
    rw [absorb_succ]
    split_ifs
    · rw [ih, List.length_set]
    · rfl

theorem absorb_flags : ∀ {fuel : Nat} (cells : List Cell) (block k : Nat),
    (cellAt (absorb cells block fuel) k).isAllocated = (cellAt cells k).isAllocated := by
  intro fuel
  induction fuel with
  | zero => intro cells block k; rfl
  | succ f ih =>
    intro cells block k
    rw [absorb_succ]
    split_ifs
    · rw [ih, cellAt_set]
      by_cases hk : k = block ∧ block < cells.length
      · rcases hk with ⟨rfl, hb⟩
        simp [hb]
      · simp [hk]
    · rfl

theorem absorb_other : ∀ {fuel : Nat} (cells : List Cell) (block k : Nat), k ≠ block →
    cellAt (absorb cells block fuel) k = cellAt cells k := by
  intro fuel
  induction fuel with
  | zero => intro cells block k _; rfl
  | succ f ih =>
    intro cells block k hk
    rw [absorb_succ]
    split_ifs
    · rw [ih _ _ _ hk, cellAt_set_ne _ hk]
    · rfl

theorem sweepReclaim_length : ∀ {fuel : Nat} (cells : List Cell) (marks : Nat → Bool)
    (block : Nat) (alive : Bool),
    (sweepReclaim cells marks block alive fuel).1.length = cells.length := by
  intro fuel
  induction fuel with
  | zero => intro cells marks block alive; rfl
  | succ f ih =>
    intro cells marks block alive
    rw [sweepReclaim_succ]
    split_ifs
    · rfl
    · exact ih ..
    · rw [ih .., cellDeallocate_length]
    · exact ih ..

theorem sweepCoalesce_length : ∀ {fuel : Nat} (cells : List Cell) (block maxIdx : Nat),
    (sweepCoalesce cells block maxIdx fuel).1.length = cells.length := by
  intro fuel
  induction fuel with
  | zero => intro cells block maxIdx; rfl
  | succ f ih =>
    intro cells block maxIdx
    rw [sweepCoalesce_succ]
    split_ifs
    · rfl
    · exact ih ..
    · rw [ih .., absorb_length]
    · rw [ih .., absorb_length]

theorem sweepCoalesce_flags : ∀ {fuel : Nat} (cells : List Cell) (block maxIdx k : Nat),
    (cellAt (sweepCoalesce cells block maxIdx fuel).1 k).isAllocated =
      (cellAt cells k).isAllocated := by
  intro fuel
  induction fuel with
  | zero => intro cells block maxIdx k; rfl
  | succ f ih =>
    intro cells block maxIdx k
    rw [sweepCoalesce_succ]
    split_ifs
    · rfl
    · exact ih ..
    · rw [ih .., absorb_flags]
    · rw [ih .., absorb_flags]

theorem sweepCoalesce_max_free : ∀ {fuel : Nat} (cells : List Cell) (block maxIdx : Nat),
    (maxIdx = 0 ∨ (cellAt cells maxIdx).isAllocated = false) →
    ((sweepCoalesce cells block maxIdx fuel).2 = 0 ∨
      (cellAt (sweepCoalesce cells block maxIdx fuel).1
        (sweepCoalesce cells block maxIdx fuel).2).isAllocated = false) := by
  intro fuel
  induction fuel with
  | zero =>
    intro cells block maxIdx h
    rcases h with h | h
    · exact Or.inl h
    · exact Or.inr h
  | succ f ih =>
    intro cells block maxIdx h
    rw [sweepCoalesce_succ]
    split_ifs with h1 h2 h3
    · rcases h with h | h
      · exact Or.inl h
      · exact Or.inr h
    · exact ih _ _ _ h
    · refine ih _ _ _ (Or.inr ?_)
      rw [absorb_flags]
      simpa using h2
    · refine ih _ _ _ ?_
      rcases h with h | h
      · exact Or.inl h
      · refine Or.inr ?_
        rw [absorb_flags]
        exact h

/-! ### C10: the cursor never lands on an allocated cell -/

theorem updateLoop_some_fit {cells : List Cell} {stop n : Nat} :
    ∀ {fuel block maxIdx k : Nat},
      (updateLoop cells stop n block maxIdx fuel).1 = some k →
      (updateLoop cells stop n block maxIdx fuel).2 = k ∧
      (cellAt cells k).isAllocated = false ∧ n ≤ (cellAt cells k).size := by
  intro fuel
  induction fuel with
  | zero => intro block maxIdx k h; simp [updateLoop] at h
  | succ f ih =>
    intro block maxIdx k h
    rw [updateLoop_succ] at h ⊢
    split_ifs at h ⊢ with h1 h2 h3
    · replace h : block = k := by simpa using h
      subst h
      exact ⟨rfl, h2.1, h3⟩
    · exact ih h
    · exact ih h

theorem updateLoop_snd_free {cells : List Cell} {stop n : Nat} :
    ∀ {fuel block maxIdx : Nat},
      (maxIdx = 0 ∨ (cellAt cells maxIdx).isAllocated = false) →
      ((updateLoop cells stop n block maxIdx fuel).2 = 0 ∨
        (cellAt cells (updateLoop cells stop n block maxIdx fuel).2).isAllocated = false) := by
  intro fuel
  induction fuel with
  | zero => intro block maxIdx h; exact h
  | succ f ih =>
    intro block maxIdx h
    rw [updateLoop_succ]
    split_ifs with h1 h2 h3
    · exact h
    · exact Or.inr h2.1
    · exact ih (Or.inr h2.1)
    · exact ih h

theorem updateCurBlock_case1 {p : MediumPage} {n k m : Nat}
    (h : updateLoop p.cells p.cells.length n (if p.curBlock = 0 then 1 else p.curBlock) 0
        p.cells.length = (some k, m)) :
    p.updateCurBlock n = { p with curBlock := k } := by
  simp only [MediumPage.updateCurBlock, h]

theorem updateCurBlock_case2 {p : MediumPage} {n m1 k m : Nat}
    (h1 : updateLoop p.cells p.cells.length n (if p.curBlock = 0 then 1 else p.curBlock) 0
        p.cells.length = (none, m1))
    (h2 : updateLoop p.cells (if p.curBlock = 0 then 1 else p.curBlock) n 1 m1
        p.cells.length = (some k, m)) :
    p.updateCurBlock n = { p with curBlock := k } := by
  simp only [MediumPage.updateCurBlock, h1, h2]

theorem updateCurBlock_case3 {p : MediumPage} {n m1 m2 : Nat}
    (h1 : updateLoop p.cells p.cells.length n (if p.curBlock = 0 then 1 else p.curBlock) 0
        p.cells.length = (none, m1))
    (h2 : updateLoop p.cells (if p.curBlock = 0 then 1 else p.curBlock) n 1 m1
        p.cells.length = (none, m2)) :
    p.updateCurBlock n = { p with curBlock := m2 } := by
  simp only [MediumPage.updateCurBlock, h1, h2]

theorem updateCurBlock_cursor_free (p : MediumPage) (n : Nat) :
    (p.updateCurBlock n).curBlock = 0 ∨
      (cellAt (p.updateCurBlock n).cells (p.updateCurBlock n).curBlock).isAllocated
        = false := by
  rw [updateCurBlock_cells]
  rcases h1 : updateLoop p.cells p.cells.length n
      (if p.curBlock = 0 then 1 else p.curBlock) 0 p.cells.length with ⟨o1, m1⟩
  cases o1 with
  | some found =>
    rw [updateCurBlock_case1 h1]
    exact Or.inr (updateLoop_some_fit (by rw [h1])).2.1
  | none =>
    have hm1 : m1 = 0 ∨ (cellAt p.cells m1).isAllocated = false := by
      have h := @updateLoop_snd_free p.cells p.cells.length n p.cells.length
        (if p.curBlock = 0 then 1 else p.curBlock) 0 (Or.inl rfl)
      rw [h1] at h
      exact h
    rcases h2 : updateLoop p.cells (if p.curBlock = 0 then 1 else p.curBlock) n 1 m1
        p.cells.length with ⟨o2, m2⟩
    cases o2 with
    | some found =>
      rw [updateCurBlock_case2 h1 h2]
      exact Or.inr (updateLoop_some_fit (by rw [h2])).2.1
    | none =>
      rw [updateCurBlock_case3 h1 h2]
      have h := @updateLoop_snd_free p.cells
        (if p.curBlock = 0 then 1 else p.curBlock) n p.cells.length 1 m1 hm1
      rw [h2] at h
      exact h

theorem sweep_cursor_free (p : MediumPage) (m : Nat → Bool) :
    (p.sweep m).1.curBlock = 0 ∨
      (cellAt (p.sweep m).1.cells (p.sweep m).1.curBlock).isAllocated = false := by
  simp only [MediumPage.sweep]
  exact sweepCoalesce_max_free _ _ _ (Or.inl rfl)

/-- C10: whenever `UpdateCurBlock` returns and whenever `Sweep` returns, the
cursor references either the sentinel cell 0 or a cell whose allocated flag is
false — neither operation leaves the cursor on an allocated cell. -/
theorem cursor_never_allocated (p : MediumPage) (n : Nat) (m : Nat → Bool) :
    ((p.updateCurBlock n).curBlock = 0 ∨
      (cellAt (p.updateCurBlock n).cells (p.updateCurBlock n).curBlock).isAllocated
        = false) ∧
    ((p.sweep m).1.curBlock = 0 ∨
      (cellAt (p.sweep m).1.cells (p.sweep m).1.curBlock).isAllocated = false) :=
  ⟨updateCurBlock_cursor_free p n, sweep_cursor_free p m⟩

/-! ### C5, C6: the cursor scan is first-fit with a strict-max fallback -/

theorem isFit_true_iff {cells : List Cell} {n j : Nat} :
    isFit cells n j = true ↔
      (cellAt cells j).isAllocated = false ∧ n ≤ (cellAt cells j).size := by
  simp [isFit]

theorem isFit_false_iff {cells : List Cell} {n j : Nat} :
    isFit cells n j = false ↔
      ((cellAt cells j).isAllocated = true ∨ (cellAt cells j).size < n) := by
  rcases Bool.eq_false_or_eq_true (cellAt cells j).isAllocated with ha | ha <;>
    simp [isFit, ha] <;> omega

/-- The loop body of `UpdateCurBlock` is exactly: first fitting free cell in
walk order if one exists (early return), otherwise the strict-max fold over
the walk — provided the incoming `maxBlock` is itself too small to fit (true
at both call sites). -/
theorem updateLoop_spec {cells : List Cell} {stop n : Nat} :
    ∀ {fuel block maxIdx : Nat},
      (cellAt cells maxIdx).size < n →
      updateLoop cells stop n block maxIdx fuel =
        (match (walkIdxs cells stop block fuel).find? (isFit cells n) with
         | some k => (some k, k)
         | none => (none, (walkIdxs cells stop block fuel).foldl (betterFree cells) maxIdx)) := by
  intro fuel
  induction fuel with
  | zero => intro block maxIdx _; rfl
  | succ f ih =>
    intro block maxIdx hmax
    rw [updateLoop_succ, walkIdxs_succ]
    by_cases h1 : block = stop
    · rw [if_pos h1, if_pos h1]
      rfl
    · rw [if_neg h1, if_neg h1]
      by_cases hfit : isFit cells n block = true
      · rcases isFit_true_iff.mp hfit with ⟨hfree, hsz⟩
        rw [List.find?_cons_of_pos _ hfit]
        rw [if_pos ⟨hfree, by omega⟩, if_pos hsz]
      · rw [List.find?_cons_of_neg _ hfit, List.foldl_cons]
        rcases isFit_false_iff.mp (Bool.eq_false_iff.mpr hfit) with halloc | hsmall
        · have hcond : ¬((cellAt cells block).isAllocated = false ∧
              (cellAt cells maxIdx).size < (cellAt cells block).size) := by
            rintro ⟨hc, -⟩
            rw [halloc] at hc
            cases hc
          rw [if_neg hcond]
          have hbf : betterFree cells maxIdx block = maxIdx := by
            unfold betterFree
            rw [if_neg hcond]
          rw [hbf]
          exact ih hmax
        · by_cases hgrow : (cellAt cells block).isAllocated = false ∧
              (cellAt cells maxIdx).size < (cellAt cells block).size
          · rw [if_pos hgrow, if_neg (by omega)]
            have hbf : betterFree cells maxIdx block = block := by
              unfold betterFree
              rw [if_pos hgrow]
            rw [hbf]
            exact ih hsmall
          · rw [if_neg hgrow]
            have hbf : betterFree cells maxIdx block = maxIdx := by
              unfold betterFree
              rw [if_neg hgrow]
            rw [hbf]
            exact ih hmax

theorem foldl_betterFree_lt {cells : List Cell} {n : Nat} :
    ∀ (l : List Nat) (m : Nat), (cellAt cells m).size < n →
      (∀ j ∈ l, isFit cells n j = false) →
      (cellAt cells (l.foldl (betterFree cells) m)).size < n := by
  intro l
  induction l with
  | nil => intro m h _; exact h
  | cons a l ih =>
    intro m h hall
    rw [List.foldl_cons]
    refine ih _ ?_ (fun j hj => hall j (List.mem_cons_of_mem _ hj))
    unfold betterFree
    split_ifs with hc
    · rcases isFit_false_iff.mp (hall a (List.mem_cons_self _ _)) with halloc | hsmall
      · rw [halloc] at hc
        rcases hc with ⟨hc, -⟩
        cases hc
      · exact hsmall
    · exact h

theorem walkIdxs_head_mem {cells : List Cell} {stop cur : Nat} {f : Nat}
    (h : cur ≠ stop) : cur ∈ walkIdxs cells stop cur (f + 1) := by
  rw [walkIdxs_succ, if_neg h]
  exact List.mem_cons_self _ _

/-- C5: `UpdateCurBlock(cellsNeeded)` sets the cursor to the first free cell
of size at least `cellsNeeded` in its scan order (forward from the
sentinel-adjusted cursor to the page end, then wrapping from cell 1 up to that
cursor) whenever one exists; no qualifying cell earlier in the scan order is
skipped.  The hypotheses: the sentinel has size 0 (true in every reachable
state) and the request is at least one cell (`TryAllocate` always passes
`blockSize + 1`). -/
theorem updateCurBlock_first_fit (p : MediumPage) (n k : Nat)
    (h0 : (cellAt p.cells 0).size = 0) (hn : 1 ≤ n)
    (hfind : p.scanOrder.find? (isFit p.cells n) = some k) :
    (p.updateCurBlock n).curBlock = k := by
  unfold MediumPage.scanOrder at hfind
  rw [List.find?_append] at hfind
  have hmax0 : (cellAt p.cells 0).size < n := by omega
  rcases hw1 : (walkIdxs p.cells p.cells.length (if p.curBlock = 0 then 1 else p.curBlock)
      p.cells.length).find? (isFit p.cells n) with _ | k1
  · rw [hw1, Option.none_or] at hfind
    have hl1 := @updateLoop_spec p.cells p.cells.length n p.cells.length
      (if p.curBlock = 0 then 1 else p.curBlock) 0 hmax0
    rw [hw1] at hl1
    have hm1lt : (cellAt p.cells ((walkIdxs p.cells p.cells.length
        (if p.curBlock = 0 then 1 else p.curBlock) p.cells.length).foldl
          (betterFree p.cells) 0)).size < n :=
      foldl_betterFree_lt _ _ hmax0
        (fun j hj => Bool.eq_false_iff.mpr (List.find?_eq_none.mp hw1 j hj))
    have hl2 := @updateLoop_spec p.cells (if p.curBlock = 0 then 1 else p.curBlock)
      n p.cells.length 1 _ hm1lt
    rw [hfind] at hl2
    exact congrArg MediumPage.curBlock (updateCurBlock_case2 hl1 hl2)
  · rw [hw1] at hfind
    have hk : k1 = k := by simpa using hfind
    subst hk
    have hl1 := @updateLoop_spec p.cells p.cells.length n p.cells.length
      (if p.curBlock = 0 then 1 else p.curBlock) 0 hmax0
    rw [hw1] at hl1
    exact congrArg MediumPage.curBlock (updateCurBlock_case1 hl1)

/-- C5 witness: on a six-unit page whose chain is an allocated cell at 1 and
a free cell of size 3 at offset 3, with the cursor at 1, a request of 2 cells
lands on offset 3. -/
theorem updateCurBlock_first_fit_witness :
    ((cellAt (⟨[⟨0, false⟩, ⟨2, true⟩, ⟨0, false⟩, ⟨3, false⟩, ⟨0, false⟩, ⟨0, false⟩],
        1⟩ : MediumPage).cells 0).size = 0) ∧ (1 ≤ 2) ∧
    ((⟨[⟨0, false⟩, ⟨2, true⟩, ⟨0, false⟩, ⟨3, false⟩, ⟨0, false⟩, ⟨0, false⟩],
        1⟩ : MediumPage).scanOrder.find?
      (isFit (⟨[⟨0, false⟩, ⟨2, true⟩, ⟨0, false⟩, ⟨3, false⟩, ⟨0, false⟩, ⟨0, false⟩],
        1⟩ : MediumPage).cells 2) = some 3) ∧
    ((⟨[⟨0, false⟩, ⟨2, true⟩, ⟨0, false⟩, ⟨3, false⟩, ⟨0, false⟩, ⟨0, false⟩],
        1⟩ : MediumPage).updateCurBlock 2).curBlock = 3 :=
  ⟨by decide, by decide, by decide,
    updateCurBlock_first_fit _ 2 3 (by decide) (by decide) (by decide)⟩

theorem cellAt_oob {cells : List Cell} {i : Nat} (h : cells.length ≤ i) :
    cellAt cells i = ⟨0, false⟩ :=
  List.getD_eq_default _ _ h

theorem cellTryAllocate_fail_of {cells : List Cell} {i n : Nat}
    (h : (cellAt cells i).isAllocated = true ∨ (cellAt cells i).size < n) :
    (cellTryAllocate cells i n).1 = none := by
  unfold cellTryAllocate
  rw [if_pos h]

theorem tryAllocate_none_of (p : MediumPage) (b : Nat)
    (hfail1 : (cellTryAllocate p.cells p.curBlock (b + 1)).1 = none)
    (hfail2 : (cellTryAllocate (p.updateCurBlock (b + 1)).cells
        (p.updateCurBlock (b + 1)).curBlock (b + 1)).1 = none) :
    (p.tryAllocate b).1 = none := by
  rw [tryAllocate_eq]
  rcases h1 : cellTryAllocate p.cells p.curBlock (b + 1) with ⟨o1, cs1⟩
  rw [h1] at hfail1
  cases o1 with
  | some a => simp at hfail1
  | none =>
    rcases h2 : cellTryAllocate (p.updateCurBlock (b + 1)).cells
        (p.updateCurBlock (b + 1)).curBlock (b + 1) with ⟨o2, cs2⟩
    rw [h2] at hfail2
    cases o2 with
    | some a => simp at hfail2
    | none => rfl

/-- C6: when no free cell anywhere in the scan order fits `cellsNeeded =
blockSize + 1`, `UpdateCurBlock` sets the cursor to the earliest-seen free
cell of overall maximum size among the scanned cells (strict greater-than
comparison, so a later cell of equal size never replaces the maximum), the
sentinel 0 standing when no free cell exists at all, and the allocation
attempt still fails. -/
theorem updateCurBlock_no_fit (p : MediumPage) (b : Nat)
    (h0 : (cellAt p.cells 0).size = 0)
    (hfind : p.scanOrder.find? (isFit p.cells (b + 1)) = none) :
    (p.updateCurBlock (b + 1)).curBlock =
      p.scanOrder.foldl (betterFree p.cells) 0 ∧
    (p.tryAllocate b).1 = none := by
  have hmax0 : (cellAt p.cells 0).size < b + 1 := by omega
  have hall : ∀ j ∈ p.scanOrder, isFit p.cells (b + 1) j = false :=
    fun j hj => Bool.eq_false_iff.mpr (List.find?_eq_none.mp hfind j hj)
  have hsplit := hfind
  unfold MediumPage.scanOrder at hsplit
  rw [List.find?_append, Option.or_eq_none] at hsplit
  have hl1 := @updateLoop_spec p.cells p.cells.length (b + 1) p.cells.length
    (if p.curBlock = 0 then 1 else p.curBlock) 0 hmax0
  rw [hsplit.1] at hl1
  have hm1lt : (cellAt p.cells ((walkIdxs p.cells p.cells.length
      (if p.curBlock = 0 then 1 else p.curBlock) p.cells.length).foldl
        (betterFree p.cells) 0)).size < b + 1 :=
    foldl_betterFree_lt _ _ hmax0
      (fun j hj => Bool.eq_false_iff.mpr (List.find?_eq_none.mp hsplit.1 j hj))
  have hl2 := @updateLoop_spec p.cells (if p.curBlock = 0 then 1 else p.curBlock)
    (b + 1) p.cells.length 1 _ hm1lt
  rw [hsplit.2] at hl2
  have hcur := updateCurBlock_case3 hl1 hl2
  have hfold : (p.updateCurBlock (b + 1)).curBlock =
      p.scanOrder.foldl (betterFree p.cells) 0 := by
    rw [hcur]
    unfold MediumPage.scanOrder
    rw [List.foldl_append]
  refine ⟨hfold, ?_⟩
  have hfoldlt : (cellAt p.cells (p.scanOrder.foldl (betterFree p.cells) 0)).size
      < b + 1 := foldl_betterFree_lt _ _ hmax0 hall
  refine tryAllocate_none_of p b ?_ ?_
  · refine cellTryAllocate_fail_of ?_
    by_cases hc0 : p.curBlock = 0
    · rw [hc0]
      omega
    · by_cases hcl : p.cells.length ≤ p.curBlock
      · rw [cellAt_oob hcl]
        simp
      · have hmem : p.curBlock ∈ p.scanOrder := by
          unfold MediumPage.scanOrder
          refine List.mem_append_left _ ?_
          rw [if_neg hc0]
          rcases Nat.exists_eq_add_of_lt (show 0 < p.cells.length by omega) with ⟨g, hg⟩
          rw [hg, Nat.zero_add]
          exact walkIdxs_head_mem (by omega)
        exact isFit_false_iff.mp (hall _ hmem)
  · rw [updateCurBlock_cells, hfold]
    refine cellTryAllocate_fail_of (Or.inr hfoldlt)

/-- C6 witness: chain free(2) at 1, allocated(1) at 3, free(2) at 4, cursor
at 4, request `blockSize = 2` (3 cells).  Nothing fits; the fold keeps the
earliest maximum (offset 4 in scan order 4,1,3 — the later equal-size cell 1
does not replace it) and the allocation fails. -/
theorem updateCurBlock_no_fit_witness :
    ((cellAt (⟨[⟨0, false⟩, ⟨2, false⟩, ⟨0, false⟩, ⟨1, true⟩, ⟨2, false⟩, ⟨0, false⟩],
        4⟩ : MediumPage).cells 0).size = 0) ∧
    ((⟨[⟨0, false⟩, ⟨2, false⟩, ⟨0, false⟩, ⟨1, true⟩, ⟨2, false⟩, ⟨0, false⟩],
        4⟩ : MediumPage).scanOrder.find?
      (isFit (⟨[⟨0, false⟩, ⟨2, false⟩, ⟨0, false⟩, ⟨1, true⟩, ⟨2, false⟩, ⟨0, false⟩],
        4⟩ : MediumPage).cells 3) = none) ∧
    ((⟨[⟨0, false⟩, ⟨2, false⟩, ⟨0, false⟩, ⟨1, true⟩, ⟨2, false⟩, ⟨0, false⟩],
        4⟩ : MediumPage).updateCurBlock 3).curBlock =
      (⟨[⟨0, false⟩, ⟨2, false⟩, ⟨0, false⟩, ⟨1, true⟩, ⟨2, false⟩, ⟨0, false⟩],
        4⟩ : MediumPage).scanOrder.foldl
        (betterFree (⟨[⟨0, false⟩, ⟨2, false⟩, ⟨0, false⟩, ⟨1, true⟩, ⟨2, false⟩,
          ⟨0, false⟩], 4⟩ : MediumPage).cells) 0 ∧
    ((⟨[⟨0, false⟩, ⟨2, false⟩, ⟨0, false⟩, ⟨1, true⟩, ⟨2, false⟩, ⟨0, false⟩],
        4⟩ : MediumPage).tryAllocate 2).1 = none :=
  ⟨by decide, by decide,
    (updateCurBlock_no_fit _ 2 (by decide) (by decide)).1,
    (updateCurBlock_no_fit _ 2 (by decide) (by decide)).2⟩

/-! ### Pass 1 of `Sweep`: the reclaim walk, fully characterised -/

theorem chainIdxs_at_end (cells : List Cell) (f : Nat) :
    chainIdxs cells cells.length f = [] := by
  cases f
  · rfl
  · rw [chainIdxs_succ, if_neg (by omega)]

theorem sweepReclaim_at_end (cells : List Cell) (marks : Nat → Bool)
    (alive : Bool) (f : Nat) :
    sweepReclaim cells marks cells.length alive (f + 1) = (cells, marks, alive) := by
  rw [sweepReclaim_succ, if_pos rfl]

theorem list_any_congr {l : List Nat} {f g : Nat → Bool}
    (h : ∀ x ∈ l, f x = g x) : l.any f = l.any g := by
  induction l with
  | nil => rfl
  | cons a l ih =>
    rw [List.any_cons, List.any_cons, h a (List.mem_cons_self ..),
      ih (fun x hx => h x (List.mem_cons_of_mem _ hx))]

/-- Every cell of the reclaim pass: a chain cell keeps its size and stays
allocated exactly when it was allocated and marked, its mark bit ends cleared
unless the cell was free; cells off the walked chain (and their marks) are
untouched; the returned `alive` is the accumulator or-ed with "some chain
cell was allocated and marked". -/
theorem sweepReclaim_spec :
    ∀ {fv : Nat} {cells : List Cell} {marks : Nat → Bool} {block : Nat} {alive : Bool},
      checkFrom cells block fv = true →
      (∀ k, k ∈ chainIdxs cells block fv →
         cellAt (sweepReclaim cells marks block alive (fv + 1)).1 k =
           ⟨(cellAt cells k).size, (cellAt cells k).isAllocated && marks k⟩ ∧
         (sweepReclaim cells marks block alive (fv + 1)).2.1 k =
           (marks k && !(cellAt cells k).isAllocated)) ∧
      (∀ k, k ∉ chainIdxs cells block fv →
         cellAt (sweepReclaim cells marks block alive (fv + 1)).1 k = cellAt cells k ∧
         (sweepReclaim cells marks block alive (fv + 1)).2.1 k = marks k) ∧
      ((sweepReclaim cells marks block alive (fv + 1)).2.2 =
        (alive || (chainIdxs cells block fv).any
          (fun k => (cellAt cells k).isAllocated && marks k))) := by
  intro fv
  induction fv with
  | zero => intro cells marks block alive h; simp [checkFrom] at h
  | succ g ih =>
    intro cells marks block alive h
    have hlt : block < cells.length := checkFrom_true_lt h
    have hsz : 1 ≤ (cellAt cells block).size := checkFrom_size_pos h
    have hchain : chainIdxs cells block (g + 1) =
        block :: chainIdxs cells (block + (cellAt cells block).size) g := by
      rw [chainIdxs_succ, if_pos hlt, if_pos hsz]
    have hstep : ∀ (cs : List Cell) (mk : Nat → Bool) (al : Bool),
        sweepReclaim cells marks block alive (g + 1 + 1) =
          sweepReclaim cs mk (block + (cellAt cells block).size) al (g + 1) →
        cs.length = cells.length →
        (∀ k, k ≠ block → cellAt cs k = cellAt cells k) →
        (∀ k, (cellAt cs k).size = (cellAt cells k).size) →
        (∀ k, k ≠ block → mk k = marks k) →
        (cellAt cs block = ⟨(cellAt cells block).size,
          (cellAt cells block).isAllocated && marks block⟩) →
        (mk block = (marks block && !(cellAt cells block).isAllocated)) →
        (al = (alive || ((cellAt cells block).isAllocated && marks block))) →
        (∀ k, k ∈ chainIdxs cells block (g + 1) →
           cellAt (sweepReclaim cells marks block alive (g + 1 + 1)).1 k =
             ⟨(cellAt cells k).size, (cellAt cells k).isAllocated && marks k⟩ ∧
           (sweepReclaim cells marks block alive (g + 1 + 1)).2.1 k =
             (marks k && !(cellAt cells k).isAllocated)) ∧
        (∀ k, k ∉ chainIdxs cells block (g + 1) →
           cellAt (sweepReclaim cells marks block alive (g + 1 + 1)).1 k = cellAt cells k ∧
           (sweepReclaim cells marks block alive (g + 1 + 1)).2.1 k = marks k) ∧
        ((sweepReclaim cells marks block alive (g + 1 + 1)).2.2 =
          (alive || (chainIdxs cells block (g + 1)).any
            (fun k => (cellAt cells k).isAllocated && marks k))) := by
      intro cs mk al hrec hlen hother hszeq hmko hcb hmkb hal
      rcases checkFrom_true_iff.mp h with ⟨-, -, hnext | hnext⟩
      · -- the walked cell is the last one: the recursive call is at the end
        rw [hrec, hnext, ← hlen, sweepReclaim_at_end]
        rw [hchain, hnext, chainIdxs_at_end]
        refine ⟨?_, ?_, ?_⟩
        · intro k hk
          rcases List.mem_cons.mp hk with rfl | hk
          · exact ⟨hcb, hmkb⟩
          · simp at hk
        · intro k hk
          have hkb : k ≠ block := by
            intro hc
            exact hk (hc ▸ List.mem_cons_self _ _)
          exact ⟨hother k hkb, hmko k hkb⟩
        · rw [hal]
          simp [Bool.or_assoc]
      · -- more chain to walk: apply the induction hypothesis on the stepped state
        have hcf : checkFrom cs (block + (cellAt cells block).size) g = true := by
          rw [checkFrom_congr hlen hszeq]
          exact hnext
        have hchcs : chainIdxs cs (block + (cellAt cells block).size) g =
            chainIdxs cells (block + (cellAt cells block).size) g :=
          chainIdxs_congr hlen hszeq _ _
        have htail_gt : ∀ k ∈ chainIdxs cells (block + (cellAt cells block).size) g,
            k ≠ block := by
          intro k hk
          have := chainIdxs_mem_ge hk
          omega
        rcases @ih cs mk (block + (cellAt cells block).size) al hcf
          with ⟨hin, hout, haliveq⟩
        rw [hchcs] at hin hout haliveq
        rw [hrec]
        refine ⟨?_, ?_, ?_⟩
        · intro k hk
          rw [hchain] at hk
          rcases List.mem_cons.mp hk with rfl | hk
          · have hkb : k ∉ chainIdxs cells (k + (cellAt cells k).size) g := by
              intro hc
              have := chainIdxs_mem_ge hc
              omega
            rcases hout k hkb with ⟨hc1, hc2⟩
            exact ⟨hc1.trans hcb, hc2.trans hmkb⟩
          · rcases hin k hk with ⟨hc1, hc2⟩
            have hkb := htail_gt k hk
            rw [hother k hkb] at hc1 hc2
            rw [hmko k hkb] at hc1 hc2
            exact ⟨hc1, hc2⟩
        · intro k hk
          rw [hchain, List.mem_cons] at hk
          push_neg at hk
          rcases hout k hk.2 with ⟨hc1, hc2⟩
          rw [hother k hk.1] at hc1
          rw [hmko k hk.1] at hc2
          exact ⟨hc1, hc2⟩
        · rw [haliveq, hal, hchain, List.any_cons]
          rw [list_any_congr (fun x hx => by
            rw [hother x (htail_gt x hx), hmko x (htail_gt x hx)])]
          cases alive <;> cases (cellAt cells block).isAllocated && marks block <;> simp
    by_cases halloc : (cellAt cells block).isAllocated = true
    · by_cases hmk : marks block = true
      · refine hstep cells (fun j => if j = block then false else marks j) true
          (by rw [sweepReclaim_succ, if_neg (by omega), if_pos halloc, if_pos hmk])
          rfl (fun k _ => rfl) (fun k => rfl)
          (fun k hk => by simp [hk]) ?_ ?_ ?_
        · rw [hmk, Bool.and_true]
        · simp [halloc, hmk]
        · rw [halloc, hmk]
          simp
      · have hmkf : marks block = false := Bool.eq_false_iff.mpr hmk
        refine hstep (cellDeallocate cells block) marks alive
          (by rw [sweepReclaim_succ, if_neg (by omega), if_pos halloc, if_neg hmk])
          (cellDeallocate_length _ _)
          (fun k hk => by rw [cellAt_deallocate, if_neg (by tauto)])
          (fun k => cellAt_deallocate_size _ _ _)
          (fun k _ => rfl) ?_ ?_ ?_
        · rw [cellAt_deallocate, if_pos ⟨rfl, hlt⟩, hmkf]
          simp
        · rw [hmkf]
          simp
        · rw [halloc, hmkf]
          simp
    · have hfree : (cellAt cells block).isAllocated = false := Bool.eq_false_iff.mpr halloc
      refine hstep cells marks alive
        (by rw [sweepReclaim_succ, if_neg (by omega), if_neg halloc])
        rfl (fun k _ => rfl) (fun k => rfl) (fun k _ => rfl) ?_ ?_ ?_
      · rw [hfree, Bool.false_and, ← hfree]
      · rw [hfree]
        simp
      · rw [hfree]
        simp

/-! ### The absorb loop of `Sweep`'s second pass -/

theorem checkFrom_congr_ge {cells cells' : List Cell}
    (hlen : cells'.length = cells.length) :
    ∀ {fuel cur}, (∀ k, cur ≤ k → (cellAt cells' k).size = (cellAt cells k).size) →
      checkFrom cells' cur fuel = checkFrom cells cur fuel := by
  intro fuel
  induction fuel with
  | zero => intro cur _; rfl
  | succ f ih =>
    intro cur hsz
    rw [checkFrom_succ, checkFrom_succ, hsz cur (Nat.le_refl _), hlen]
    split_ifs
    · rfl
    · rfl
    · rfl
    · exact ih (fun k hk => hsz k (Nat.le_trans (Nat.le_add_right _ _) hk))

theorem chainIdxs_congr_ge {cells cells' : List Cell}
    (hlen : cells'.length = cells.length) :
    ∀ {fuel cur}, (∀ k, cur ≤ k → (cellAt cells' k).size = (cellAt cells k).size) →
      chainIdxs cells' cur fuel = chainIdxs cells cur fuel := by
  intro fuel
  induction fuel with
  | zero => intro cur _; rfl
  | succ f ih =>
    intro cur hsz
    rw [chainIdxs_succ, chainIdxs_succ, hsz cur (Nat.le_refl _), hlen]
    split_ifs
    · rw [ih (fun k hk => hsz k (Nat.le_trans (Nat.le_add_right _ _) hk))]
    · rfl
    · rfl

/-- The inner `while` of the coalesce pass, characterised: starting at a free
chain cell it produces one free cell reaching exactly to `j`, the first chain
position after `block` that is allocated or the page end; every chain cell
strictly between was free; nothing but the header at `block` is written. -/
theorem absorb_spec :
    ∀ {fv : Nat} {cells : List Cell} {block : Nat},
      checkFrom cells block fv = true →
      (cellAt cells block).isAllocated = false →
      ∀ {fa : Nat}, fv ≤ fa →
      ∃ j,
        (j = cells.length ∨
          (j ∈ chainIdxs cells block fv ∧ (cellAt cells j).isAllocated = true)) ∧
        block < j ∧ j ≤ cells.length ∧
        cellAt (absorb cells block fa) block = ⟨j - block, false⟩ ∧
        (∀ k, k ∈ chainIdxs cells block fv → k < j →
          (cellAt cells k).isAllocated = false) := by
  intro fv
  induction fv with
  | zero => intro cells block h _ _ _; simp [checkFrom] at h
  | succ g ih =>
    intro cells block h hfree fa hfa
    rcases Nat.exists_eq_add_of_le hfa with ⟨fa', rfl⟩
    have hlt : block < cells.length := checkFrom_true_lt h
    have hsz : 1 ≤ (cellAt cells block).size := checkFrom_size_pos h
    have hnle : block + (cellAt cells block).size ≤ cells.length := checkFrom_next_le h
    have hchain : chainIdxs cells block (g + 1) =
        block :: chainIdxs cells (block + (cellAt cells block).size) g := by
      rw [chainIdxs_succ, if_pos hlt, if_pos hsz]
    have habsorb : absorb cells block (g + 1 + fa') = absorb cells block ((g + fa') + 1) := by
      rw [Nat.add_right_comm]
    by_cases hend : block + (cellAt cells block).size = cells.length
    · -- the cell reaches the page end: the guard fails at once
      refine ⟨cells.length, Or.inl rfl, by omega, Nat.le_refl _, ?_, ?_⟩
      · rw [habsorb, absorb_succ, if_neg (by rw [hend]; simp)]
        have : cells.length - block = (cellAt cells block).size := by omega
        rw [this, ← hfree]
      · intro k hk _
        rw [hchain, hend, chainIdxs_at_end] at hk
        rcases List.mem_singleton.mp hk with rfl
        exact hfree
    · have hg : checkFrom cells (block + (cellAt cells block).size) g = true := by
        rcases checkFrom_true_iff.mp h with ⟨-, -, hc | hc⟩
        · exact absurd hc hend
        · exact hc
      have hnlt : block + (cellAt cells block).size < cells.length := by omega
      by_cases halloc :
          (cellAt cells (block + (cellAt cells block).size)).isAllocated = true
      · -- next cell is allocated: the guard fails at once
        refine ⟨block + (cellAt cells block).size,
          Or.inr ⟨by rw [hchain]; exact List.mem_cons_of_mem _ (chainIdxs_self_mem hg),
            halloc⟩, by omega, hnle, ?_, ?_⟩
        · rw [habsorb, absorb_succ, if_neg (by rw [halloc]; simp)]
          have : block + (cellAt cells block).size - block = (cellAt cells block).size := by
            omega
          rw [this, ← hfree]
        · intro k hk hkj
          rw [hchain] at hk
          rcases List.mem_cons.mp hk with rfl | hk
          · exact hfree
          · have := chainIdxs_mem_ge hk
            omega
      · -- next cell is free: absorb one step and recurse
        have hfree2 : (cellAt cells (block + (cellAt cells block).size)).isAllocated
            = false := Bool.eq_false_iff.mpr halloc
        have hsz2 : 1 ≤ (cellAt cells (block + (cellAt cells block).size)).size :=
          checkFrom_size_pos hg
        rcases Nat.exists_eq_add_of_lt (checkFrom_pos hg) with ⟨g2, hg2⟩
        rw [Nat.zero_add] at hg2
        set nxt := block + (cellAt cells block).size with hnxt
        set s2 := (cellAt cells nxt).size with hs2
        set cells' := cells.set block ⟨(cellAt cells block).size + s2,
          (cellAt cells block).isAllocated⟩ with hcells'
        have hlen' : cells'.length = cells.length := by
          rw [hcells', List.length_set]
        have hat' : cellAt cells' block = ⟨(cellAt cells block).size + s2,
            (cellAt cells block).isAllocated⟩ := cellAt_set_self _ hlt
        have hother' : ∀ k, k ≠ block → cellAt cells' k = cellAt cells k :=
          fun k hk => cellAt_set_ne _ hk
        have hgeat' : ∀ k, nxt + s2 ≤ k →
            (cellAt cells' k).size = (cellAt cells k).size := by
          intro k hk
          rw [hother' k (by omega)]
        have hnxt2 : block + (cellAt cells' block).size = nxt + s2 := by
          rw [hat']
          simp [hnxt]
          omega
        have hg2' : checkFrom cells (nxt + s2) g2 = true ∨ nxt + s2 = cells.length := by
          rw [hg2] at hg
          rcases checkFrom_true_iff.mp hg with ⟨-, -, hc | hc⟩
          · exact Or.inr hc
          · exact Or.inl hc
        have hcf' : checkFrom cells' block g = true := by
          rw [hg2]
          refine checkFrom_true_iff.mpr ⟨?_, ?_, ?_⟩
          · rw [hat']
            simp
            omega
          · rw [hnxt2, hlen']
            rw [hg2] at hg
            exact checkFrom_next_le hg
          · rw [hnxt2, hlen']
            rcases hg2' with hc | hc
            · refine Or.inr ?_
              rw [checkFrom_congr_ge hlen' (fun k hk => hgeat' k hk)]
              exact hc
            · exact Or.inl hc
        have hfree' : (cellAt cells' block).isAllocated = false := by
          rw [hat']
          exact hfree
        have hstep : absorb cells block (g + 1 + fa') = absorb cells' block (g + fa') := by
          rw [habsorb, absorb_succ, if_pos ⟨hend, hfree2⟩]
        rcases ih hcf' hfree' (Nat.le_add_right g fa') with
          ⟨j, hj1, hj2, hj3, hj4, hj5⟩
        have hchain' : chainIdxs cells' block g = block :: chainIdxs cells (nxt + s2) g2 := by
          rw [hg2, chainIdxs_succ, if_pos (by omega), if_pos (by rw [hat']; simp; omega),
            hnxt2]
          rw [chainIdxs_congr_ge hlen' (fun k hk => hgeat' k hk)]
        have hchain2 : chainIdxs cells nxt g = nxt :: chainIdxs cells (nxt + s2) g2 := by
          rw [hg2, chainIdxs_succ, if_pos hnlt, if_pos hsz2]
        refine ⟨j, ?_, by omega, by rw [← hlen']; exact hj3, ?_, ?_⟩
        · rcases hj1 with hc | ⟨hc1, hc2⟩
          · exact Or.inl (by rw [← hlen']; exact hc)
          · refine Or.inr ⟨?_, ?_⟩
            · rw [hchain, hchain2]
              rw [hchain'] at hc1
              rcases List.mem_cons.mp hc1 with rfl | hc1
              · omega
              · exact List.mem_cons_of_mem _ (List.mem_cons_of_mem _ hc1)
            · rw [← hother' j (by omega)]
              exact hc2
        · rw [hstep]
          exact hj4
        · intro k hk hkj
          rw [hchain] at hk
          rcases List.mem_cons.mp hk with rfl | hk
          · exact hfree
          · rw [hchain2] at hk
            rcases List.mem_cons.mp hk with rfl | hk
            · exact hfree2
            · have hkge := chainIdxs_mem_ge hk
              have hfk := hj5 k (by rw [hchain']; exact List.mem_cons_of_mem _ hk) hkj
              rw [hother' k (by omega)] at hfk
              exact hfk

/-! ### Chain helpers with canonical fuel -/

theorem chain_cons {cells : List Cell} {block f : Nat}
    (h : checkFrom cells block f = true) :
    chainIdxs cells block cells.length =
      block :: chainIdxs cells (block + (cellAt cells block).size) cells.length := by
  have hb := checkFrom_bound h
  have hlt : block < cells.length := checkFrom_true_lt h
  rw [chainIdxs_fuel_eq hb (by omega)]
  rcases Nat.exists_eq_add_of_lt (show 0 < cells.length - block by omega) with ⟨m, hm⟩
  rw [Nat.zero_add] at hm
  rw [hm, chainIdxs_succ, if_pos hlt, if_pos (checkFrom_size_pos h)]
  rcases checkFrom_true_iff.mp (hm ▸ hb) with ⟨-, -, hc | hc⟩
  · rw [hc, chainIdxs_at_end, chainIdxs_at_end]
  · rw [@chainIdxs_fuel_eq _ _ cells.length _ hc (by omega)]

theorem checkFrom_cons {cells : List Cell} {block nxt : Nat}
    (hlt : block < cells.length)
    (hstep : block + (cellAt cells block).size = nxt)
    (hgt : block < nxt) (hle : nxt ≤ cells.length)
    (htail : nxt = cells.length ∨ checkFrom cells nxt (cells.length - nxt) = true) :
    checkFrom cells block (cells.length - block) = true := by
  rw [show cells.length - block = (cells.length - block - 1) + 1 by omega]
  refine checkFrom_true_iff.mpr ⟨by omega, by omega, ?_⟩
  rw [hstep]
  rcases htail with hc | hc
  · exact Or.inl hc
  · exact Or.inr (checkFrom_mono hc (by omega))

theorem chain_mem_trans {cells : List Cell} :
    ∀ {f block j k : Nat}, checkFrom cells block f = true →
      j ∈ chainIdxs cells block f → k ∈ chainIdxs cells j f →
      k ∈ chainIdxs cells block f := by
  intro f
  induction f with
  | zero => intro block j k h _ _; simp [checkFrom] at h
  | succ g ih =>
    intro block j k h hj hk
    have hlt : block < cells.length := checkFrom_true_lt h
    have hsz : 1 ≤ (cellAt cells block).size := checkFrom_size_pos h
    rw [chainIdxs_succ, if_pos hlt, if_pos hsz] at hj ⊢
    rcases List.mem_cons.mp hj with rfl | hj
    · rw [chainIdxs_succ, if_pos hlt, if_pos hsz] at hk
      exact hk
    · rcases checkFrom_true_iff.mp h with ⟨-, -, hc | hc⟩
      · rw [hc, chainIdxs_at_end] at hj
        simp at hj
      · have hjv : checkFrom cells j g = true := chain_suffix_valid hc hj
        rw [chainIdxs_fuel_eq hjv (Nat.le_succ g)] at hk
        exact List.mem_cons_of_mem _ (ih hc hj hk)

theorem chain_mem_from {cells : List Cell} :
    ∀ {f block j k : Nat}, checkFrom cells block f = true →
      j ∈ chainIdxs cells block f → k ∈ chainIdxs cells block f →
      j ≤ k → k ∈ chainIdxs cells j f := by
  intro f
  induction f with
  | zero => intro block j k h _ _ _; simp [checkFrom] at h
  | succ g ih =>
    intro block j k h hj hk hjk
    have hlt : block < cells.length := checkFrom_true_lt h
    have hsz : 1 ≤ (cellAt cells block).size := checkFrom_size_pos h
    rw [chainIdxs_succ, if_pos hlt, if_pos hsz] at hj hk
    rcases List.mem_cons.mp hj with rfl | hj
    · rw [chainIdxs_succ, if_pos hlt, if_pos hsz]
      exact hk
    · rcases checkFrom_true_iff.mp h with ⟨-, -, hc | hc⟩
      · rw [hc, chainIdxs_at_end] at hj
        simp at hj
      · rcases List.mem_cons.mp hk with rfl | hk
        · have := chainIdxs_mem_ge hj
          omega
        · have hjv : checkFrom cells j g = true := chain_suffix_valid hc hj
          rw [chainIdxs_fuel_eq hjv (Nat.le_succ g)]
          exact ih hc hj hk hjk

theorem chain_pred {cells : List Cell} :
    ∀ {f block k : Nat}, k ∈ chainIdxs cells block f → k ≠ block →
      ∃ prev, prev ∈ chainIdxs cells block f ∧
        prev + (cellAt cells prev).size = k := by
  intro f
  induction f with
  | zero => intro block k hk _; simp [chainIdxs] at hk
  | succ g ih =>
    intro block k hk hkb
    rw [chainIdxs_succ] at hk
    split_ifs at hk with h1 h2
    · rcases List.mem_cons.mp hk with rfl | hk
      · exact absurd rfl hkb
      · by_cases hknxt : k = block + (cellAt cells block).size
        · refine ⟨block, ?_, hknxt.symm⟩
          rw [chainIdxs_succ, if_pos h1, if_pos h2]
          exact List.mem_cons_self _ _
        · rcases ih hk hknxt with ⟨prev, hp1, hp2⟩
          refine ⟨prev, ?_, hp2⟩
          rw [chainIdxs_succ, if_pos h1, if_pos h2]
          exact List.mem_cons_of_mem _ hp1
    · rcases List.mem_singleton.mp hk with rfl
      exact absurd rfl hkb
    · simp at hk

theorem sweepCoalesce_alloc_untouched :
    ∀ {fc : Nat} {cells : List Cell} {block maxIdx k : Nat},
      (cellAt cells k).isAllocated = true →
      cellAt (sweepCoalesce cells block maxIdx fc).1 k = cellAt cells k := by
  intro fc
  induction fc with
  | zero => intro cells block maxIdx k _; rfl
  | succ f ih =>
    intro cells block maxIdx k hk
    rw [sweepCoalesce_succ]
    split_ifs with h1 h2
    · rfl
    · exact ih hk
    · have hkb : k ≠ block := by
        intro hc
        rw [hc] at hk
        rw [hk] at h2
        exact h2 rfl
      have h3 := @absorb_other cells.length cells block k hkb
      rw [ih (by rw [h3]; exact hk), h3]
    · have hkb : k ≠ block := by
        intro hc
        rw [hc] at hk
        rw [hk] at h2
        exact h2 rfl
      have h3 := @absorb_other cells.length cells block k hkb
      rw [ih (by rw [h3]; exact hk), h3]

/-- The coalesce pass of `Sweep`, characterised relative to the walk start:
cells before the start are untouched; the chain from the start stays
well-formed; the resulting chain is a subset of the input chain containing
every allocated cell and every free run head (cells absorbed into a
predecessor drop out); no free cell of the result is immediately followed by
a free cell; and the returned `maxBlock` is the strict-max fold over the
resulting chain. -/
theorem sweepCoalesce_spec :
    ∀ {fc : Nat} {cells : List Cell} {block maxIdx : Nat},
      (block = cells.length ∨ checkFrom cells block (cells.length - block) = true) →
      cells.length - block < fc →
      maxIdx < block →
      (∀ k, k < block →
         cellAt (sweepCoalesce cells block maxIdx fc).1 k = cellAt cells k) ∧
      (block = cells.length ∨
        checkFrom (sweepCoalesce cells block maxIdx fc).1 block
          (cells.length - block) = true) ∧
      (∀ k, k ∈ chainIdxs (sweepCoalesce cells block maxIdx fc).1 block cells.length →
         k ∈ chainIdxs cells block cells.length) ∧
      (∀ k, k ∈ chainIdxs cells block cells.length →
         (cellAt cells k).isAllocated = true →
         k ∈ chainIdxs (sweepCoalesce cells block maxIdx fc).1 block cells.length) ∧
      (∀ k, k ∈ chainIdxs (sweepCoalesce cells block maxIdx fc).1 block cells.length →
         (cellAt (sweepCoalesce cells block maxIdx fc).1 k).isAllocated = false →
         (k + (cellAt (sweepCoalesce cells block maxIdx fc).1 k).size = cells.length ∨
           (cellAt (sweepCoalesce cells block maxIdx fc).1
             (k + (cellAt (sweepCoalesce cells block maxIdx fc).1 k).size)).isAllocated
             = true)) ∧
      ((sweepCoalesce cells block maxIdx fc).2 =
        (chainIdxs (sweepCoalesce cells block maxIdx fc).1 block cells.length).foldl
          (betterFree (sweepCoalesce cells block maxIdx fc).1) maxIdx) ∧
      (∀ k, k ∈ chainIdxs cells block cells.length →
         (cellAt cells k).isAllocated = false →
         (∀ prev, prev ∈ chainIdxs cells block cells.length →
            prev + (cellAt cells prev).size = k →
            (cellAt cells prev).isAllocated = true) →
         k ∈ chainIdxs (sweepCoalesce cells block maxIdx fc).1 block cells.length) := by
  intro fc
  induction fc with
  | zero => intro cells block maxIdx hv hfc hmx; omega
  | succ fc' ih =>
    intro cells block maxIdx hv hfc hmx
    by_cases hbl : block = cells.length
    · have hS : sweepCoalesce cells block maxIdx (fc' + 1) = (cells, maxIdx) := by
        rw [sweepCoalesce_succ, if_pos hbl]
      rw [hS]
      subst hbl
      rw [chainIdxs_at_end]
      exact ⟨fun k _ => rfl, Or.inl rfl, fun k hk => by simp at hk,
        fun k hk => by simp at hk, fun k hk => by simp at hk, rfl,
        fun k hk => by simp at hk⟩
    · have hv' : checkFrom cells block (cells.length - block) = true := hv.resolve_left hbl
      have hlt : block < cells.length := checkFrom_true_lt hv'
      have hszb : 1 ≤ (cellAt cells block).size := checkFrom_size_pos hv'
      have hnle : block + (cellAt cells block).size ≤ cells.length :=
        checkFrom_next_le hv'
      have hvlen : checkFrom cells block cells.length = true :=
        checkFrom_mono hv' (by omega)
      have hfe : chainIdxs cells block cells.length =
          chainIdxs cells block (cells.length - block) :=
        chainIdxs_fuel_eq hv' (by omega)
      have hchaincells : chainIdxs cells block cells.length =
          block :: chainIdxs cells (block + (cellAt cells block).size) cells.length :=
        chain_cons hv'
      have hnv : block + (cellAt cells block).size = cells.length ∨
          checkFrom cells (block + (cellAt cells block).size)
            (cells.length - (block + (cellAt cells block).size)) = true := by
        rcases Nat.exists_eq_add_of_lt (show 0 < cells.length - block by omega) with ⟨m, hm0⟩
        rw [Nat.zero_add] at hm0
        have hv2 := hv'
        rw [hm0] at hv2
        rcases checkFrom_true_iff.mp hv2 with ⟨-, -, hc | hc⟩
        · exact Or.inl hc
        · exact Or.inr (checkFrom_bound hc)
      by_cases halloc : (cellAt cells block).isAllocated = true
      · -- the walked cell is allocated: skip it
        have hS : sweepCoalesce cells block maxIdx (fc' + 1) =
            sweepCoalesce cells (block + (cellAt cells block).size) maxIdx fc' := by
          rw [sweepCoalesce_succ, if_neg hbl, if_pos halloc]
        rw [hS]
        obtain ⟨rc, ra, rf1, rf2, rg, re, rh2⟩ :=
          @ih cells (block + (cellAt cells block).size)
            maxIdx hnv (by omega) (by omega)
        have hlenS : (sweepCoalesce cells (block + (cellAt cells block).size) maxIdx
            fc').1.length = cells.length := sweepCoalesce_length ..
        have hfinblock : cellAt (sweepCoalesce cells (block + (cellAt cells block).size)
            maxIdx fc').1 block = cellAt cells block := rc block (by omega)
        have hafin : checkFrom (sweepCoalesce cells (block + (cellAt cells block).size)
            maxIdx fc').1 block (cells.length - block) = true := by
          have h1 := @checkFrom_cons
            (sweepCoalesce cells (block + (cellAt cells block).size) maxIdx fc').1
            block (block + (cellAt cells block).size)
            (by rw [hlenS]; omega) (by rw [hfinblock]) (by omega)
            (by rw [hlenS]; exact hnle) (by rw [hlenS]; exact ra)
          rw [hlenS] at h1
          exact h1
        have hchainfin : chainIdxs (sweepCoalesce cells
              (block + (cellAt cells block).size) maxIdx fc').1 block cells.length =
            block :: chainIdxs (sweepCoalesce cells (block + (cellAt cells block).size)
              maxIdx fc').1 (block + (cellAt cells block).size) cells.length := by
          have h1 := chain_cons hafin
          rw [hlenS, hfinblock] at h1
          exact h1
        refine ⟨fun k hk => rc k (by omega), Or.inr hafin, ?_, ?_, ?_, ?_, ?_⟩
        · intro k hk
          rw [hchainfin] at hk
          rw [hchaincells]
          rcases List.mem_cons.mp hk with rfl | hk
          · exact List.mem_cons_self _ _
          · exact List.mem_cons_of_mem _ (rf1 k hk)
        · intro k hk hal
          rw [hchaincells] at hk
          rw [hchainfin]
          rcases List.mem_cons.mp hk with rfl | hk
          · exact List.mem_cons_self _ _
          · exact List.mem_cons_of_mem _ (rf2 k hk hal)
        · intro k hk hfr
          rw [hchainfin] at hk
          rcases List.mem_cons.mp hk with rfl | hk
          · rw [hfinblock, halloc] at hfr
            simp at hfr
          · exact rg k hk hfr
        · rw [re, hchainfin, List.foldl_cons]
          have hbf : betterFree (sweepCoalesce cells (block + (cellAt cells block).size)
              maxIdx fc').1 maxIdx block = maxIdx := by
            unfold betterFree
            rw [hfinblock]
            rw [if_neg (by rintro ⟨hc, -⟩; rw [halloc] at hc; cases hc)]
          rw [hbf]
        · intro k hk hfr hhead
          rw [hchaincells] at hk
          rw [hchainfin]
          rcases List.mem_cons.mp hk with rfl | hk
          · rw [halloc] at hfr
            simp at hfr
          · refine List.mem_cons_of_mem _ (rh2 k hk hfr ?_)
            intro prev hprev hpn
            exact hhead prev
              (by rw [hchaincells]; exact List.mem_cons_of_mem _ hprev) hpn
      · -- the walked cell is free: absorb its run, jump to the end of the run
        have hfree : (cellAt cells block).isAllocated = false :=
          Bool.eq_false_iff.mpr halloc
        obtain ⟨j, hj1, hj2, hj3, hj4, hj5⟩ :=
          @absorb_spec (cells.length - block) cells block hv' hfree
            cells.length (by omega)
        set cells' := absorb cells block cells.length with hcells'
        have hother2 : ∀ k, k ≠ block → cellAt cells' k = cellAt cells k := by
          intro k hk
          rw [hcells']
          exact absorb_other _ _ _ hk
        have hlen' : cells'.length = cells.length := by
          rw [hcells']
          exact absorb_length ..
        have hpos : block + (cellAt cells' block).size = j := by
          rw [hj4]
          simp
          omega
        set maxIdx2 := if (cellAt cells' maxIdx).size < (cellAt cells' block).size
          then block else maxIdx with hmaxIdx2
        have hS : sweepCoalesce cells block maxIdx (fc' + 1) =
            sweepCoalesce cells' (block + (cellAt cells' block).size) maxIdx2 fc' := by
          rw [sweepCoalesce_succ, if_neg hbl, if_neg halloc]
        rw [hS, hpos]
        have hj1' : j = cells.length ∨
            (j ∈ chainIdxs cells block cells.length ∧
              (cellAt cells j).isAllocated = true) := by
          rcases hj1 with hc | ⟨hc1, hc2⟩
          · exact Or.inl hc
          · exact Or.inr ⟨by rw [hfe]; exact hc1, hc2⟩
        have hj5' : ∀ k, k ∈ chainIdxs cells block cells.length → k < j →
            (cellAt cells k).isAllocated = false := by
          intro k hk hkj
          refine hj5 k ?_ hkj
          rw [← hfe]
          exact hk
        have hchainj : chainIdxs cells' j cells.length =
            chainIdxs cells j cells.length :=
          chainIdxs_congr_ge hlen' (fun k hk => by rw [hother2 k (by omega)]) ..
        have hvj : j = cells.length ∨ checkFrom cells' j (cells.length - j) = true := by
          rcases hj1' with hc | ⟨hc1, hc2⟩
          · exact Or.inl hc
          · refine Or.inr ?_
            rw [checkFrom_congr_ge hlen' (fun k hk => by rw [hother2 k (by omega)])]
            exact checkFrom_bound (chain_suffix_valid hvlen hc1)
        obtain ⟨rc, ra, rf1, rf2, rg, re, rh2⟩ :=
          @ih cells' j maxIdx2
            (by rw [hlen']; exact hvj) (by rw [hlen']; omega)
            (by rw [hmaxIdx2]; split_ifs <;> omega)
        rw [hlen'] at ra rf1 rf2 rg re rh2
        have hlenS : (sweepCoalesce cells' j maxIdx2 fc').1.length = cells.length :=
          (sweepCoalesce_length ..).trans hlen'
        have hfinb : cellAt (sweepCoalesce cells' j maxIdx2 fc').1 block =
            ⟨j - block, false⟩ := (rc block (by omega)).trans hj4
        have hposfin : block + (cellAt (sweepCoalesce cells' j maxIdx2 fc').1 block).size
            = j := by
          rw [hfinb]
          simp
          omega
        have hafin : checkFrom (sweepCoalesce cells' j maxIdx2 fc').1 block
            (cells.length - block) = true := by
          have h1 := @checkFrom_cons
            (sweepCoalesce cells' j maxIdx2 fc').1
            block j
            (by rw [hlenS]; omega) (by rw [hposfin]) (by omega)
            (by rw [hlenS]; exact hj3) (by rw [hlenS]; exact ra)
          rw [hlenS] at h1
          exact h1
        have hchainfin : chainIdxs (sweepCoalesce cells' j maxIdx2 fc').1 block
              cells.length =
            block :: chainIdxs (sweepCoalesce cells' j maxIdx2 fc').1 j cells.length := by
          have h1 := chain_cons hafin
          rw [hlenS, hposfin] at h1
          exact h1
        refine ⟨?_, Or.inr hafin, ?_, ?_, ?_, ?_, ?_⟩
        · intro k hk
          rw [rc k (by omega)]
          exact hother2 k (by omega)
        · intro k hk
          rw [hchainfin] at hk
          rcases List.mem_cons.mp hk with rfl | hk
          · exact chainIdxs_self_mem hvlen
          · have h1 := rf1 k hk
            rw [hchainj] at h1
            rcases hj1' with hc | ⟨hc1, hc2⟩
            · rw [hc, chainIdxs_at_end] at h1
              simp at h1
            · exact chain_mem_trans hvlen hc1 h1
        · intro k hk hal
          have hkj : j ≤ k := by
            by_contra hlt2
            have h1 := hj5' k hk (by omega)
            rw [hal] at h1
            simp at h1
          rcases hj1' with hc | ⟨hc1, hc2⟩
          · have := chainIdxs_mem_lt hk
            omega
          · have hkj2 : k ∈ chainIdxs cells j cells.length :=
              chain_mem_from hvlen hc1 hk hkj
            rw [← hchainj] at hkj2
            have hkal' : (cellAt cells' k).isAllocated = true := by
              rw [hother2 k (by omega)]
              exact hal
            rw [hchainfin]
            exact List.mem_cons_of_mem _ (rf2 k hkj2 hkal')
        · intro k hk hfr
          rw [hchainfin] at hk
          rcases List.mem_cons.mp hk with rfl | hk
          · rw [hposfin]
            rcases hj1' with hc | ⟨hc1, hc2⟩
            · exact Or.inl hc
            · refine Or.inr ?_
              rw [sweepCoalesce_flags, hother2 j (by omega)]
              exact hc2
          · exact rg k hk hfr
        · rw [re, hchainfin, List.foldl_cons]
          have hfmx : cellAt (sweepCoalesce cells' j maxIdx2 fc').1 maxIdx =
              cellAt cells' maxIdx := rc maxIdx (by omega)
          have hbf : betterFree (sweepCoalesce cells' j maxIdx2 fc').1 maxIdx block =
              maxIdx2 := by
            unfold betterFree
            rw [hfinb, hfmx, hmaxIdx2, hj4]
            simp
          rw [hbf]
        · intro k hk hfr hhead
          by_cases hkb : k = block
          · subst hkb
            rw [hchainfin]
            exact List.mem_cons_self _ _
          · rcases chain_pred hk hkb with ⟨prev, hp1, hp2⟩
            have hpalloc := hhead prev hp1 hp2
            by_cases hpj : prev < j
            · have h1 := hj5' prev hp1 hpj
              rw [hpalloc] at h1
              simp at h1
            · have hps := chain_mem_size_pos hvlen hp1
              have hkgtj : j < k := by omega
              rcases hj1' with hc | ⟨hc1, hc2⟩
              · have := chainIdxs_mem_lt hk
                omega
              · have hkj2 : k ∈ chainIdxs cells j cells.length :=
                  chain_mem_from hvlen hc1 hk (by omega)
                rw [← hchainj] at hkj2
                have hfr' : (cellAt cells' k).isAllocated = false := by
                  rw [hother2 k (by omega)]
                  exact hfr
                have hhead' : ∀ prev2, prev2 ∈ chainIdxs cells' j cells.length →
                    prev2 + (cellAt cells' prev2).size = k →
                    (cellAt cells' prev2).isAllocated = true := by
                  intro prev2 hq1 hq2
                  have hq1' := hq1
                  rw [hchainj] at hq1'
                  have hge := chainIdxs_mem_ge hq1'
                  rw [hother2 prev2 (by omega)] at hq2 ⊢
                  exact hhead prev2 (chain_mem_trans hvlen hc1 hq1') hq2
                rw [hchainfin]
                exact List.mem_cons_of_mem _ (rh2 k hkj2 hfr' hhead')

/-! ### Page-level composition of the two sweep passes -/

theorem sweep_eq (p : MediumPage) (marks : Nat → Bool) :
    p.sweep marks =
      ({ cells := (sweepCoalesce (sweepReclaim p.cells marks 1 false p.cells.length).1
            1 0 (sweepReclaim p.cells marks 1 false p.cells.length).1.length).1,
         curBlock := (sweepCoalesce (sweepReclaim p.cells marks 1 false p.cells.length).1
            1 0 (sweepReclaim p.cells marks 1 false p.cells.length).1.length).2 },
       (sweepReclaim p.cells marks 1 false p.cells.length).2.1,
       (sweepReclaim p.cells marks 1 false p.cells.length).2.2) := rfl

/-- Pass 1 instantiated for a whole page (walk from cell 1 with the page's
fuel). -/
theorem page_reclaim (p : MediumPage) (marks : Nat → Bool)
    (hcf : checkFrom p.cells 1 p.cells.length = true) :
    (∀ k, k ∈ chain p.cells 1 →
       cellAt (sweepReclaim p.cells marks 1 false p.cells.length).1 k =
         ⟨(cellAt p.cells k).size, (cellAt p.cells k).isAllocated && marks k⟩ ∧
       (sweepReclaim p.cells marks 1 false p.cells.length).2.1 k =
         (marks k && !(cellAt p.cells k).isAllocated)) ∧
    (∀ k, k ∉ chain p.cells 1 →
       cellAt (sweepReclaim p.cells marks 1 false p.cells.length).1 k =
         cellAt p.cells k ∧
       (sweepReclaim p.cells marks 1 false p.cells.length).2.1 k = marks k) ∧
    ((sweepReclaim p.cells marks 1 false p.cells.length).2.2 =
      (chain p.cells 1).any
        (fun k => (cellAt p.cells k).isAllocated && marks k)) := by
  have hlt : 1 < p.cells.length := checkFrom_true_lt hcf
  have h1 : checkFrom p.cells 1 (p.cells.length - 1) = true := checkFrom_bound hcf
  have hlen1 : p.cells.length = (p.cells.length - 1) + 1 := by omega
  have hchain : chain p.cells 1 = chainIdxs p.cells 1 (p.cells.length - 1) :=
    chainIdxs_fuel_eq h1 (by omega)
  obtain ⟨ha, hb, hc⟩ := @sweepReclaim_spec (p.cells.length - 1)
    p.cells marks 1 false h1
  rw [← hlen1] at ha hb hc
  rw [hchain]
  refine ⟨ha, hb, ?_⟩
  rw [hc]
  simp

/-- The reclaim pass changes no sizes, so the chain and its well-formedness
carry over verbatim. -/
theorem page_reclaim_sizes (p : MediumPage) (marks : Nat → Bool)
    (hcf : checkFrom p.cells 1 p.cells.length = true) :
    (∀ k, (cellAt (sweepReclaim p.cells marks 1 false p.cells.length).1 k).size =
      (cellAt p.cells k).size) ∧
    checkFrom (sweepReclaim p.cells marks 1 false p.cells.length).1 1
      p.cells.length = true ∧
    (∀ cur f, chainIdxs (sweepReclaim p.cells marks 1 false p.cells.length).1 cur f =
      chainIdxs p.cells cur f) := by
  obtain ⟨ha, hb, -⟩ := page_reclaim p marks hcf
  have hsz : ∀ k, (cellAt (sweepReclaim p.cells marks 1 false p.cells.length).1 k).size =
      (cellAt p.cells k).size := by
    intro k
    by_cases hk : k ∈ chain p.cells 1
    · rw [(ha k hk).1]
    · rw [(hb k hk).1]
  have hlen := @sweepReclaim_length p.cells.length p.cells marks 1 false
  refine ⟨hsz, ?_, fun cur f => chainIdxs_congr hlen hsz f cur⟩
  rw [checkFrom_congr hlen hsz]
  exact hcf

theorem foldl_betterFree_mem (cells : List Cell) :
    ∀ (l : List Nat) (m : Nat),
      l.foldl (betterFree cells) m = m ∨ l.foldl (betterFree cells) m ∈ l := by
  intro l
  induction l with
  | nil => intro m; exact Or.inl rfl
  | cons a l ih =>
    intro m
    rw [List.foldl_cons]
    have hba : betterFree cells m a = a ∨ betterFree cells m a = m := by
      unfold betterFree
      split_ifs
      · exact Or.inl rfl
      · exact Or.inr rfl
    rcases hba with hba | hba <;> rw [hba]
    · rcases ih a with h | h
      · refine Or.inr ?_
        rw [h]
        exact List.mem_cons_self _ _
      · exact Or.inr (List.mem_cons_of_mem _ h)
    · rcases ih m with h | h
      · exact Or.inl h
      · exact Or.inr (List.mem_cons_of_mem _ h)

/-- `Sweep` preserves the page invariant. -/
theorem inv_sweep {p : MediumPage} (marks : Nat → Bool) (hInv : Inv p) :
    Inv (p.sweep marks).1 := by
  obtain ⟨hsent, hcf, -⟩ := hInv
  obtain ⟨hsz1, hcf1, hch1⟩ := page_reclaim_sizes p marks hcf
  obtain ⟨-, hb, -⟩ := page_reclaim p marks hcf
  have hlt : 1 < p.cells.length := checkFrom_true_lt hcf
  have hlen1 := @sweepReclaim_length p.cells.length p.cells marks 1 false
  set R1 := (sweepReclaim p.cells marks 1 false p.cells.length).1 with hR1
  obtain ⟨rc, ra, rf1, rf2, rg, re, rh2⟩ :=
    @sweepCoalesce_spec R1.length R1 1 0
      (Or.inr (checkFrom_bound hcf1)) (by omega) (by omega)
  have hlen2 : (sweepCoalesce R1 1 0 R1.length).1.length = R1.length :=
    sweepCoalesce_length ..
  rw [sweep_eq]
  refine ⟨?_, ?_, ?_⟩
  · show cellAt (sweepCoalesce R1 1 0 R1.length).1 0 = ⟨0, false⟩
    rw [rc 0 (by omega)]
    rw [(hb 0 (fun hc => by have := chainIdxs_mem_ge hc; omega)).1]
    exact hsent
  · show checkFrom (sweepCoalesce R1 1 0 R1.length).1 1
      (sweepCoalesce R1 1 0 R1.length).1.length = true
    rw [hlen2]
    exact checkFrom_mono (ra.resolve_left (by omega)) (by omega)
  · show (sweepCoalesce R1 1 0 R1.length).2 = 0 ∨
      (sweepCoalesce R1 1 0 R1.length).2 ∈
        chain (sweepCoalesce R1 1 0 R1.length).1 1
    rw [re]
    unfold chain
    rw [hlen2]
    exact foldl_betterFree_mem _ _ 0

/-! ### `TryAllocate` preserves the page invariant -/

theorem updateLoop_mem {cells : List Cell} {stop n : Nat} {S : List Nat}
    (hclosure : ∀ x ∈ S, x + (cellAt cells x).size = cells.length ∨
      x + (cellAt cells x).size ∈ S) :
    ∀ {fuel block maxIdx : Nat},
      (block ∈ S ∨ block = cells.length) → (maxIdx ∈ S ∨ maxIdx = 0) →
      ((∀ k, (updateLoop cells stop n block maxIdx fuel).1 = some k → k ∈ S) ∧
       ((updateLoop cells stop n block maxIdx fuel).2 ∈ S ∨
        (updateLoop cells stop n block maxIdx fuel).2 = 0)) := by
  intro fuel
  induction fuel with
  | zero =>
    intro block maxIdx _ hm
    exact ⟨fun k hk => by simp [updateLoop] at hk, hm⟩
  | succ f ih =>
    intro block maxIdx hb hm
    rw [updateLoop_succ]
    split_ifs with h1 h2 h3
    · exact ⟨fun k hk => by simp at hk, hm⟩
    · have hbS : block ∈ S := by
        rcases hb with hb | hb
        · exact hb
        · rw [hb, cellAt_oob (Nat.le_refl _)] at h2
          rcases h2 with ⟨-, hc⟩
          simp at hc
      exact ⟨fun k hk => by
        have : block = k := by simpa using hk
        rw [← this]
        exact hbS, Or.inl hbS⟩
    · have hbS : block ∈ S := by
        rcases hb with hb | hb
        · exact hb
        · rw [hb, cellAt_oob (Nat.le_refl _)] at h2
          rcases h2 with ⟨-, hc⟩
          simp at hc
      refine ih ?_ (Or.inl hbS)
      rcases hclosure block hbS with hc | hc
      · exact Or.inr hc
      · exact Or.inl hc
    · refine ih ?_ hm
      rcases hb with hb | hb
      · rcases hclosure block hb with hc | hc
        · exact Or.inr hc
        · exact Or.inl hc
      · rw [hb, cellAt_oob (Nat.le_refl _)]
        exact Or.inr (by simp)

theorem updateCurBlock_mem {p : MediumPage} (n : Nat) (hInv : Inv p) :
    (p.updateCurBlock n).curBlock = 0 ∨ (p.updateCurBlock n).curBlock ∈ chain p.cells 1 := by
  obtain ⟨hsent, hcf, hcur⟩ := hInv
  have hvlen : checkFrom p.cells 1 p.cells.length = true := hcf
  have hclosure : ∀ x ∈ chain p.cells 1,
      x + (cellAt p.cells x).size = p.cells.length ∨
      x + (cellAt p.cells x).size ∈ chain p.cells 1 :=
    fun x hx => chain_closure hvlen hx
  have hstart : (if p.curBlock = 0 then 1 else p.curBlock) ∈ chain p.cells 1 ∨
      (if p.curBlock = 0 then 1 else p.curBlock) = p.cells.length := by
    split_ifs with h0
    · exact Or.inl (chainIdxs_self_mem hvlen)
    · rcases hcur with hc | hc
      · exact absurd hc h0
      · exact Or.inl hc
  rcases h1 : updateLoop p.cells p.cells.length n
      (if p.curBlock = 0 then 1 else p.curBlock) 0 p.cells.length with ⟨o1, m1⟩
  obtain ⟨hsome1, hsnd1⟩ := @updateLoop_mem _ _ _ _ hclosure
    p.cells.length (if p.curBlock = 0 then 1 else p.curBlock)
    0 hstart (Or.inr rfl)
  rw [h1] at hsome1 hsnd1
  cases o1 with
  | some found =>
    rw [updateCurBlock_case1 h1]
    exact Or.inr (hsome1 found rfl)
  | none =>
    rcases h2 : updateLoop p.cells (if p.curBlock = 0 then 1 else p.curBlock) n 1 m1
        p.cells.length with ⟨o2, m2⟩
    obtain ⟨hsome2, hsnd2⟩ := @updateLoop_mem _ _ _ _ hclosure
      p.cells.length 1 m1
      (Or.inl (chainIdxs_self_mem hvlen))
      (by rcases hsnd1 with hc | hc
          · exact Or.inl hc
          · exact Or.inr hc)
    rw [h2] at hsome2 hsnd2
    cases o2 with
    | some found =>
      rw [updateCurBlock_case2 h1 h2]
      exact Or.inr (hsome2 found rfl)
    | none =>
      rw [updateCurBlock_case3 h1 h2]
      rcases hsnd2 with hc | hc
      · exact Or.inr hc
      · exact Or.inl hc

theorem cellTryAllocate_some {cells : List Cell} {i n a : Nat} {cs : List Cell}
    (h : cellTryAllocate cells i n = (some a, cs)) :
    (cellAt cells i).isAllocated = false ∧ n ≤ (cellAt cells i).size ∧ a = i + 1 ∧
    cs = (if n < (cellAt cells i).size then
        (cells.set i ⟨n, true⟩).set (i + n) ⟨(cellAt cells i).size - n, false⟩
      else cells.set i ⟨n, true⟩) := by
  unfold cellTryAllocate at h
  split_ifs at h with h1 h2
  · exact absurd (congrArg Prod.fst h) (by simp)
  · push_neg at h1
    rcases Prod.mk.injEq .. ▸ h with ⟨ha, hcs⟩
    refine ⟨Bool.eq_false_iff.mpr h1.1, by
      have := h1.2
      omega, (Option.some_inj.mp ha).symm, ?_⟩
    rw [if_pos h2]
    exact hcs.symm
  · push_neg at h1
    rcases Prod.mk.injEq .. ▸ h with ⟨ha, hcs⟩
    refine ⟨Bool.eq_false_iff.mpr h1.1, by
      have := h1.2
      omega, (Option.some_inj.mp ha).symm, ?_⟩
    rw [if_neg h2]
    exact hcs.symm

/-- Carving a free chain cell preserves chain well-formedness (with one unit
of extra fuel for the possible extra header) and keeps the carved cell on
the chain. -/
theorem alloc_preserves_chain {cells : List Cell} {i n : Nat}
    (hn : 1 ≤ n) (hfree : (cellAt cells i).isAllocated = false)
    (hsz : n ≤ (cellAt cells i).size) :
    ∀ {f j : Nat}, checkFrom cells j f = true → i ∈ chainIdxs cells j f →
      checkFrom (if n < (cellAt cells i).size then
          (cells.set i ⟨n, true⟩).set (i + n) ⟨(cellAt cells i).size - n, false⟩
        else cells.set i ⟨n, true⟩) j (f + 1) = true ∧
      i ∈ chainIdxs (if n < (cellAt cells i).size then
          (cells.set i ⟨n, true⟩).set (i + n) ⟨(cellAt cells i).size - n, false⟩
        else cells.set i ⟨n, true⟩) j (f + 1) := by
  intro f
  induction f with
  | zero => intro j h _; simp [checkFrom] at h
  | succ g ih =>
    intro j h hj
    have hjlt : j < cells.length := checkFrom_true_lt h
    have hjsz : 1 ≤ (cellAt cells j).size := checkFrom_size_pos h
    have hilt : i < cells.length := chainIdxs_mem_lt hj
    have hisz : 1 ≤ (cellAt cells i).size := chain_mem_size_pos h hj
    have hinle : i + (cellAt cells i).size ≤ cells.length :=
      checkFrom_next_le (chain_suffix_valid h hj)
    have hlencs : (if n < (cellAt cells i).size then
        (cells.set i ⟨n, true⟩).set (i + n) ⟨(cellAt cells i).size - n, false⟩
      else cells.set i ⟨n, true⟩).length = cells.length := by
      split_ifs <;> simp
    have hmap : ∀ k, k ≠ i → k ≠ i + n →
        cellAt (if n < (cellAt cells i).size then
          (cells.set i ⟨n, true⟩).set (i + n) ⟨(cellAt cells i).size - n, false⟩
        else cells.set i ⟨n, true⟩) k = cellAt cells k := by
      intro k hk1 hk2
      split_ifs
      · rw [cellAt_set_ne _ hk2, cellAt_set_ne _ hk1]
      · rw [cellAt_set_ne _ hk1]
    have hcsi : cellAt (if n < (cellAt cells i).size then
        (cells.set i ⟨n, true⟩).set (i + n) ⟨(cellAt cells i).size - n, false⟩
      else cells.set i ⟨n, true⟩) i = ⟨n, true⟩ := by
      split_ifs with hcase
      · rw [cellAt_set_ne _ (by omega), cellAt_set_self _ hilt]
      · rw [cellAt_set_self _ hilt]
    rw [chainIdxs_succ, if_pos hjlt, if_pos hjsz] at hj
    rcases List.mem_cons.mp hj with rfl | hjtail
    · -- the carved cell is the walk head
      by_cases hcase : n < (cellAt cells i).size
      · have hcsi2 : cellAt ((cells.set i ⟨n, true⟩).set (i + n)
            ⟨(cellAt cells i).size - n, false⟩) i = ⟨n, true⟩ := by
          rw [cellAt_set_ne _ (by omega), cellAt_set_self _ hilt]
        have hcsn : cellAt ((cells.set i ⟨n, true⟩).set (i + n)
            ⟨(cellAt cells i).size - n, false⟩) (i + n) =
            ⟨(cellAt cells i).size - n, false⟩ := by
          rw [cellAt_set_self]
          rw [List.length_set]
          omega
        have htailok : i + (cellAt cells i).size = cells.length ∨
            checkFrom ((cells.set i ⟨n, true⟩).set (i + n)
              ⟨(cellAt cells i).size - n, false⟩) (i + (cellAt cells i).size) g
              = true := by
          rcases checkFrom_true_iff.mp h with ⟨-, -, hc | hc⟩
          · exact Or.inl hc
          · refine Or.inr ?_
            rw [@checkFrom_congr_ge cells
              ((cells.set i ⟨n, true⟩).set (i + n)
                ⟨(cellAt cells i).size - n, false⟩)
              (by simp) _ _ (fun k hk => by
                rw [cellAt_set_ne _ (by omega), cellAt_set_ne _ (by omega)])]
            exact hc
        have hcf2 : checkFrom ((cells.set i ⟨n, true⟩).set (i + n)
            ⟨(cellAt cells i).size - n, false⟩) (i + n) (g + 1) = true := by
          refine checkFrom_true_iff.mpr ⟨?_, ?_, ?_⟩
          · rw [hcsn]
            show i + n < i + n + ((cellAt cells i).size - n)
            omega
          · rw [hcsn, List.length_set, List.length_set]
            show i + n + ((cellAt cells i).size - n) ≤ cells.length
            omega
          · rw [hcsn, List.length_set, List.length_set]
            show i + n + ((cellAt cells i).size - n) = cells.length ∨ _
            rw [show i + n + ((cellAt cells i).size - n) =
              i + (cellAt cells i).size by omega]
            exact htailok
        have hcf1 : checkFrom ((cells.set i ⟨n, true⟩).set (i + n)
            ⟨(cellAt cells i).size - n, false⟩) i (g + 1 + 1) = true := by
          refine checkFrom_true_iff.mpr ⟨?_, ?_, ?_⟩
          · rw [hcsi2]
            show i < i + n
            omega
          · rw [hcsi2, List.length_set, List.length_set]
            show i + n ≤ cells.length
            omega
          · rw [hcsi2]
            exact Or.inr hcf2
        rw [if_pos hcase]
        exact ⟨hcf1, chainIdxs_self_mem hcf1⟩
      · -- exact fit: only the flag of the carved cell changes
        have hcsi2 : cellAt (cells.set i ⟨n, true⟩) i = ⟨n, true⟩ :=
          cellAt_set_self _ hilt
        have hneq : n = (cellAt cells i).size := by omega
        have htailok : i + (cellAt cells i).size = cells.length ∨
            checkFrom (cells.set i ⟨n, true⟩) (i + (cellAt cells i).size) g = true := by
          rcases checkFrom_true_iff.mp h with ⟨-, -, hc | hc⟩
          · exact Or.inl hc
          · refine Or.inr ?_
            rw [@checkFrom_congr_ge cells
              (cells.set i ⟨n, true⟩)
              (by simp) _ _ (fun k hk => by rw [cellAt_set_ne _ (by omega)])]
            exact hc
        have hcf1 : checkFrom (cells.set i ⟨n, true⟩) i (g + 1 + 1) = true := by
          refine checkFrom_true_iff.mpr ⟨?_, ?_, ?_⟩
          · rw [hcsi2]
            show i < i + n
            omega
          · rw [hcsi2, List.length_set]
            show i + n ≤ cells.length
            omega
          · rw [hcsi2, List.length_set]
            show i + n = cells.length ∨ _
            rw [show i + n = i + (cellAt cells i).size by omega]
            rcases htailok with hc | hc
            · exact Or.inl hc
            · exact Or.inr (checkFrom_mono hc (by omega))
        rw [if_neg hcase]
        exact ⟨hcf1, chainIdxs_self_mem hcf1⟩
    · -- the walk head is before the carved cell
      have hinxt : i ∈ chainIdxs cells (j + (cellAt cells j).size) g := hjtail
      have higej : j + (cellAt cells j).size ≤ i := chainIdxs_mem_ge hinxt
      rcases checkFrom_true_iff.mp h with ⟨-, -, hc | hc⟩
      · rw [hc, chainIdxs_at_end] at hinxt
        simp at hinxt
      · obtain ⟨hcf2, hmem2⟩ := ih hc hinxt
        have hmapj : cellAt (if n < (cellAt cells i).size then
            (cells.set i ⟨n, true⟩).set (i + n) ⟨(cellAt cells i).size - n, false⟩
          else cells.set i ⟨n, true⟩) j = cellAt cells j :=
          hmap j (by omega) (by omega)
        have hcf1 : checkFrom (if n < (cellAt cells i).size then
            (cells.set i ⟨n, true⟩).set (i + n) ⟨(cellAt cells i).size - n, false⟩
          else cells.set i ⟨n, true⟩) j (g + 1 + 1) = true := by
          refine checkFrom_true_iff.mpr ⟨?_, ?_, ?_⟩
          · rw [hmapj]
            omega
          · rw [hmapj, hlencs]
            exact checkFrom_next_le h
          · rw [hmapj, hlencs]
            exact Or.inr hcf2
        refine ⟨hcf1, ?_⟩
        rw [chainIdxs_succ, if_pos (by rw [hlencs]; omega),
          if_pos (by rw [hmapj]; omega), hmapj]
        exact List.mem_cons_of_mem _ hmem2

theorem inv_updateCurBlock {p : MediumPage} (n : Nat) (hInv : Inv p) :
    Inv (p.updateCurBlock n) := by
  refine ⟨?_, ?_, ?_⟩
  · rw [updateCurBlock_cells]
    exact hInv.1
  · rw [updateCurBlock_cells]
    exact hInv.2.1
  · rw [updateCurBlock_cells]
    exact updateCurBlock_mem n hInv

theorem inv_alloc_success {q : MediumPage} {n a : Nat} {cs : List Cell}
    (hInv : Inv q) (hn : 1 ≤ n)
    (h : cellTryAllocate q.cells q.curBlock n = (some a, cs)) :
    Inv { q with cells := cs } := by
  obtain ⟨hsent, hcf, hcur⟩ := hInv
  obtain ⟨hfree, hsz, -, hcs⟩ := cellTryAllocate_some h
  have hlt1 : 1 < q.cells.length := checkFrom_true_lt hcf
  have hcurmem : q.curBlock ∈ chain q.cells 1 := by
    rcases hcur with hc | hc
    · rw [hc, hsent] at hsz
      simp at hsz
      omega
    · exact hc
  have hb := checkFrom_bound hcf
  have hchainfe : chain q.cells 1 = chainIdxs q.cells 1 (q.cells.length - 1) :=
    chainIdxs_fuel_eq hb (by omega)
  have hcurge : 1 ≤ q.curBlock := chainIdxs_mem_ge hcurmem
  obtain ⟨hcf2, hmem2⟩ := alloc_preserves_chain hn hfree hsz hb
    (by rw [← hchainfe]; exact hcurmem)
  rw [← hcs] at hcf2 hmem2
  have hlen2 : cs.length = q.cells.length := by
    rw [hcs]
    split_ifs <;> simp
  have hfuel : q.cells.length - 1 + 1 = q.cells.length := by omega
  rw [hfuel] at hcf2 hmem2
  refine ⟨?_, ?_, ?_⟩
  · show cellAt cs 0 = ⟨0, false⟩
    rw [hcs]
    split_ifs
    · rw [cellAt_set_ne _ (by omega), cellAt_set_ne _ (by omega)]
      exact hsent
    · rw [cellAt_set_ne _ (by omega)]
      exact hsent
  · show checkFrom cs 1 cs.length = true
    rw [hlen2]
    exact hcf2
  · refine Or.inr ?_
    show q.curBlock ∈ chain cs 1
    unfold chain
    rw [hlen2]
    exact hmem2

theorem inv_tryAllocate {p : MediumPage} (b : Nat) (hInv : Inv p) :
    Inv (p.tryAllocate b).2 := by
  rw [tryAllocate_eq]
  rcases h1 : cellTryAllocate p.cells p.curBlock (b + 1) with ⟨o1, cs1⟩
  cases o1 with
  | some a => exact inv_alloc_success hInv (by omega) h1
  | none =>
    have hInv' : Inv (p.updateCurBlock (b + 1)) := inv_updateCurBlock _ hInv
    rcases h2 : cellTryAllocate (p.updateCurBlock (b + 1)).cells
        (p.updateCurBlock (b + 1)).curBlock (b + 1) with ⟨o2, cs2⟩
    cases o2 with
    | some a => exact inv_alloc_success hInv' (by omega) h2
    | none => exact hInv'

theorem inv_create {CELL_COUNT cellCount : Nat} {q : MediumPage}
    (h2 : 2 ≤ CELL_COUNT)
    (hq : MediumPage.create CELL_COUNT cellCount = some q) : Inv q := by
  unfold MediumPage.create at hq
  split_ifs at hq with h
  have hq' := (Option.some_inj.mp hq).symm
  subst hq'
  have hlen : (((List.replicate CELL_COUNT (⟨0, false⟩ : Cell)).set 0
      ⟨0, false⟩).set 1 ⟨CELL_COUNT - 1, false⟩).length = CELL_COUNT := by
    simp
  have h1 : cellAt (((List.replicate CELL_COUNT (⟨0, false⟩ : Cell)).set 0
      ⟨0, false⟩).set 1 ⟨CELL_COUNT - 1, false⟩) 1 = ⟨CELL_COUNT - 1, false⟩ := by
    rw [cellAt_set_self]
    rw [List.length_set, List.length_replicate]
    omega
  refine ⟨?_, ?_, Or.inl rfl⟩
  · show cellAt _ 0 = ⟨0, false⟩
    rw [cellAt_set_ne _ (by omega), cellAt_set_self]
    simp
    omega
  · set cs := ((List.replicate CELL_COUNT (⟨0, false⟩ : Cell)).set 0
      ⟨0, false⟩).set 1 ⟨CELL_COUNT - 1, false⟩ with hcsdef
    show checkFrom cs 1 cs.length = true
    rw [hlen]
    rcases Nat.exists_eq_add_of_le' h2 with ⟨g, hg⟩
    rw [hg, show g + 2 = (g + 1) + 1 from rfl, checkFrom_succ, h1]
    rw [if_neg (by simp; omega), if_neg (by rw [hlen]; simp; omega)]
    rw [if_pos (by rw [hlen]; simp; omega)]

theorem inv_runOps {q : MediumPage} (ops : List PageOp) (hInv : Inv q) :
    Inv (runOps q ops) := by
  induction ops generalizing q with
  | nil => exact hInv
  | cons op ops ih =>
    refine ih (q := applyOp q op) ?_
    cases op with
    | tryAllocate b => exact inv_tryAllocate b hInv
    | sweep m => exact inv_sweep m hInv

theorem inv_checkInvariants {p : MediumPage} (hInv : Inv p) :
    p.checkInvariants = true := by
  obtain ⟨-, hcf, hcur⟩ := hInv
  unfold MediumPage.checkInvariants
  rw [hcf, Bool.and_true, decide_eq_true_iff]
  rcases hcur with hc | hc
  · rw [hc]
    have := checkFrom_true_lt hcf
    omega
  · exact chainIdxs_mem_lt hc

/-- C1: starting from any freshly created page, after every sequence of
public operations (`TryAllocate`, `Sweep`) the resulting state satisfies
`CheckInvariants`: the cursor lies within the page bounds and the chain from
cell 1 advances strictly to exactly the page end with no gap or overlap. -/
theorem checkInvariants_reachable (CELL_COUNT cellCount : Nat) (ops : List PageOp)
    (h2 : 2 ≤ CELL_COUNT) (hcc : cellCount < CELL_COUNT) :
    ∀ q, MediumPage.create CELL_COUNT cellCount = some q →
      (runOps q ops).checkInvariants = true := by
  intro q hq
  exact inv_checkInvariants (inv_runOps ops (inv_create h2 hq))

/-- C1 witness: an 8-cell page, one allocation and one sweep. -/
theorem checkInvariants_reachable_witness :
    (2 ≤ 8) ∧ (0 < 8) ∧
    (MediumPage.create 8 0 = some
      ⟨[⟨0, false⟩, ⟨7, false⟩, ⟨0, false⟩, ⟨0, false⟩, ⟨0, false⟩, ⟨0, false⟩,
        ⟨0, false⟩, ⟨0, false⟩], 0⟩) ∧
    (runOps ⟨[⟨0, false⟩, ⟨7, false⟩, ⟨0, false⟩, ⟨0, false⟩, ⟨0, false⟩, ⟨0, false⟩,
        ⟨0, false⟩, ⟨0, false⟩], 0⟩
      [PageOp.tryAllocate 2, PageOp.sweep (fun j => decide (j = 1))]).checkInvariants
      = true :=
  ⟨by decide, by decide, by decide,
    checkInvariants_reachable 8 0
      [PageOp.tryAllocate 2, PageOp.sweep (fun j => decide (j = 1))]
      (by decide) (by decide) _ (by decide)⟩

/-! ### C2: what the reclaim pass of Sweep does, observed on the whole call -/

/-- C2: during `Sweep`, every chain cell whose payload has a pending mark
survives with its header untouched and the mark is consumed (cleared);
every allocated chain cell without a mark is deallocated; free cells stay
free; and the returned boolean is true exactly when some allocated chain
cell was marked. -/
theorem sweep_reclaim_exact (p : MediumPage) (marks : Nat → Bool)
    (hInv : Inv p) :
    (∀ k, k ∈ chain p.cells 1 →
       ((cellAt p.cells k).isAllocated = true → marks k = true →
          cellAt (p.sweep marks).1.cells k = cellAt p.cells k ∧
          (p.sweep marks).2.1 k = false) ∧
       ((cellAt p.cells k).isAllocated = true → marks k = false →
          (cellAt (p.sweep marks).1.cells k).isAllocated = false) ∧
       ((cellAt p.cells k).isAllocated = false →
          (cellAt (p.sweep marks).1.cells k).isAllocated = false)) ∧
    ((p.sweep marks).2.2 = true ↔
      ∃ k, k ∈ chain p.cells 1 ∧ (cellAt p.cells k).isAllocated = true ∧
        marks k = true) := by
  have hcf : checkFrom p.cells 1 p.cells.length = true := hInv.2.1
  obtain ⟨ha, hb, hc⟩ := page_reclaim p marks hcf
  have hflags : ∀ k, (cellAt (p.sweep marks).1.cells k).isAllocated =
      (cellAt (sweepReclaim p.cells marks 1 false p.cells.length).1 k).isAllocated := by
    intro k
    rw [sweep_eq]
    exact sweepCoalesce_flags _ _ _ _
  have hmarksout : (p.sweep marks).2.1 =
      (sweepReclaim p.cells marks 1 false p.cells.length).2.1 := by
    rw [sweep_eq]
  have haliveout : (p.sweep marks).2.2 =
      (sweepReclaim p.cells marks 1 false p.cells.length).2.2 := by
    rw [sweep_eq]
  refine ⟨?_, ?_⟩
  · intro k hk
    obtain ⟨hcell, hmark⟩ := ha k hk
    refine ⟨?_, ?_, ?_⟩
    · intro hal hm
      have hkeep : cellAt (sweepReclaim p.cells marks 1 false p.cells.length).1 k =
          cellAt p.cells k := by
        rw [hcell, hal, hm]
        rw [show ((true : Bool) && true) = true from rfl]
        rw [← hal]
      constructor
      · have huntouched : cellAt (p.sweep marks).1.cells k =
            cellAt (sweepReclaim p.cells marks 1 false p.cells.length).1 k := by
          rw [sweep_eq]
          exact sweepCoalesce_alloc_untouched (by rw [hkeep]; exact hal)
        rw [huntouched, hkeep]
      · rw [hmarksout, hmark, hal]
        simp
    · intro hal hm
      rw [hflags k, hcell]
      simp [hal, hm]
    · intro hal
      rw [hflags k, hcell]
      simp [hal]
  · rw [haliveout, hc, List.any_eq_true]
    constructor
    · rintro ⟨k, hk, hpk⟩
      have h2 := Bool.and_eq_true_iff.mp hpk
      exact ⟨k, hk, h2.1, h2.2⟩
    · rintro ⟨k, hk, h1, h2⟩
      exact ⟨k, hk, by rw [h1, h2]; rfl⟩

/-- C2 witness: a 6-cell page whose chain is 1 (allocated, marked),
3 (allocated, unmarked), 4 (free); cell 1 survives with its mark cleared,
cell 3 is reclaimed, cell 4 stays free, and the call returns true. -/
theorem sweep_reclaim_exact_witness :
    Inv (⟨[⟨0, false⟩, ⟨2, true⟩, ⟨0, false⟩, ⟨1, true⟩, ⟨2, false⟩, ⟨0, false⟩],
      4⟩ : MediumPage) ∧
    ((∀ k, k ∈ chain (⟨[⟨0, false⟩, ⟨2, true⟩, ⟨0, false⟩, ⟨1, true⟩, ⟨2, false⟩,
          ⟨0, false⟩], 4⟩ : MediumPage).cells 1 →
       ((cellAt (⟨[⟨0, false⟩, ⟨2, true⟩, ⟨0, false⟩, ⟨1, true⟩, ⟨2, false⟩,
            ⟨0, false⟩], 4⟩ : MediumPage).cells k).isAllocated = true →
          (fun j => decide (j = 1)) k = true →
          cellAt ((⟨[⟨0, false⟩, ⟨2, true⟩, ⟨0, false⟩, ⟨1, true⟩, ⟨2, false⟩,
              ⟨0, false⟩], 4⟩ : MediumPage).sweep
              (fun j => decide (j = 1))).1.cells k =
            cellAt (⟨[⟨0, false⟩, ⟨2, true⟩, ⟨0, false⟩, ⟨1, true⟩, ⟨2, false⟩,
              ⟨0, false⟩], 4⟩ : MediumPage).cells k ∧
          ((⟨[⟨0, false⟩, ⟨2, true⟩, ⟨0, false⟩, ⟨1, true⟩, ⟨2, false⟩,
              ⟨0, false⟩], 4⟩ : MediumPage).sweep
              (fun j => decide (j = 1))).2.1 k = false) ∧
       ((cellAt (⟨[⟨0, false⟩, ⟨2, true⟩, ⟨0, false⟩, ⟨1, true⟩, ⟨2, false⟩,
            ⟨0, false⟩], 4⟩ : MediumPage).cells k).isAllocated = true →
          (fun j => decide (j = 1)) k = false →
          (cellAt ((⟨[⟨0, false⟩, ⟨2, true⟩, ⟨0, false⟩, ⟨1, true⟩, ⟨2, false⟩,
              ⟨0, false⟩], 4⟩ : MediumPage).sweep
              (fun j => decide (j = 1))).1.cells k).isAllocated = false) ∧
       ((cellAt (⟨[⟨0, false⟩, ⟨2, true⟩, ⟨0, false⟩, ⟨1, true⟩, ⟨2, false⟩,
            ⟨0, false⟩], 4⟩ : MediumPage).cells k).isAllocated = false →
          (cellAt ((⟨[⟨0, false⟩, ⟨2, true⟩, ⟨0, false⟩, ⟨1, true⟩, ⟨2, false⟩,
              ⟨0, false⟩], 4⟩ : MediumPage).sweep
              (fun j => decide (j = 1))).1.cells k).isAllocated = false)) ∧
     (((⟨[⟨0, false⟩, ⟨2, true⟩, ⟨0, false⟩, ⟨1, true⟩, ⟨2, false⟩,
          ⟨0, false⟩], 4⟩ : MediumPage).sweep (fun j => decide (j = 1))).2.2 =
        true ↔
      ∃ k, k ∈ chain (⟨[⟨0, false⟩, ⟨2, true⟩, ⟨0, false⟩, ⟨1, true⟩, ⟨2, false⟩,
          ⟨0, false⟩], 4⟩ : MediumPage).cells 1 ∧
        (cellAt (⟨[⟨0, false⟩, ⟨2, true⟩, ⟨0, false⟩, ⟨1, true⟩, ⟨2, false⟩,
            ⟨0, false⟩], 4⟩ : MediumPage).cells k).isAllocated = true ∧
        (fun j => decide (j = 1)) k = true)) :=
  ⟨by decide,
   sweep_reclaim_exact
     ⟨[⟨0, false⟩, ⟨2, true⟩, ⟨0, false⟩, ⟨1, true⟩, ⟨2, false⟩, ⟨0, false⟩], 4⟩
     (fun j => decide (j = 1)) (by decide)⟩

/-! ### C7: the coalescing pass merges maximal free runs and picks the max -/

theorem betterFree_acc_le (cells : List Cell) (m a : Nat) :
    (cellAt cells m).size ≤ (cellAt cells (betterFree cells m a)).size := by
  unfold betterFree
  split_ifs with h
  · exact Nat.le_of_lt h.2
  · exact Nat.le_refl _

theorem foldl_betterFree_acc_le (cells : List Cell) :
    ∀ (l : List Nat) (m : Nat),
      (cellAt cells m).size ≤ (cellAt cells (l.foldl (betterFree cells) m)).size := by
  intro l
  induction l with
  | nil => intro m; exact Nat.le_refl _
  | cons a l ih =>
    intro m
    rw [List.foldl_cons]
    exact Nat.le_trans (betterFree_acc_le cells m a) (ih (betterFree cells m a))

theorem foldl_betterFree_ge (cells : List Cell) :
    ∀ (l : List Nat) (m : Nat) (j : Nat), j ∈ l →
      (cellAt cells j).isAllocated = false →
      (cellAt cells j).size ≤ (cellAt cells (l.foldl (betterFree cells) m)).size := by
  intro l
  induction l with
  | nil => intro m j hj _; simp at hj
  | cons a l ih =>
    intro m j hj hfree
    rw [List.foldl_cons]
    rcases List.mem_cons.mp hj with hj | hj
    · subst hj
      have h1 : (cellAt cells j).size ≤ (cellAt cells (betterFree cells m j)).size := by
        unfold betterFree
        split_ifs with h
        · exact Nat.le_refl _
        · have h2 : ¬ (cellAt cells m).size < (cellAt cells j).size :=
            fun hlt => h ⟨hfree, hlt⟩
          omega
      exact Nat.le_trans h1 (foldl_betterFree_acc_le cells l _)
    · exact ih _ j hj hfree

/-- C7: if, in the state seen by the coalescing pass (after the reclaim
pass), cell `i` of size `a` is free, the immediately adjacent cell `i + a`
of size `b` is free, the run ends there (the next header is allocated or the
page end) and the run starts at `i` (any chain predecessor of `i` is
allocated), then after `Sweep` the two cells form a single free cell of size
`a + b`; moreover `curBlock` then references the sentinel 0 or a free chain
cell whose size is maximal among all free cells of the resulting page. -/
theorem sweep_coalesce_pair (p : MediumPage) (marks : Nat → Bool) (hInv : Inv p)
    (i a b : Nat)
    (hi : i ∈ chain p.cells 1)
    (hia : (cellAt p.cells i).size = a)
    (hfree1 : (cellAt (sweepReclaim p.cells marks 1 false p.cells.length).1
      i).isAllocated = false)
    (hj : i + a ∈ chain p.cells 1)
    (hjb : (cellAt p.cells (i + a)).size = b)
    (hfree2 : (cellAt (sweepReclaim p.cells marks 1 false p.cells.length).1
      (i + a)).isAllocated = false)
    (htail : i + a + b = p.cells.length ∨
      (cellAt (sweepReclaim p.cells marks 1 false p.cells.length).1
        (i + a + b)).isAllocated = true)
    (hhead : ∀ prev, prev ∈ chain p.cells 1 →
      prev + (cellAt p.cells prev).size = i →
      (cellAt (sweepReclaim p.cells marks 1 false p.cells.length).1
        prev).isAllocated = true) :
    cellAt (p.sweep marks).1.cells i = ⟨a + b, false⟩ ∧
    ((p.sweep marks).1.curBlock = 0 ∨
      ((p.sweep marks).1.curBlock ∈ chain (p.sweep marks).1.cells 1 ∧
        (cellAt (p.sweep marks).1.cells (p.sweep marks).1.curBlock).isAllocated
          = false)) ∧
    (∀ j, j ∈ chain (p.sweep marks).1.cells 1 →
      (cellAt (p.sweep marks).1.cells j).isAllocated = false →
      (cellAt (p.sweep marks).1.cells j).size ≤
        (cellAt (p.sweep marks).1.cells (p.sweep marks).1.curBlock).size) := by
  obtain ⟨hsent, hcf, -⟩ := hInv
  obtain ⟨hsz1, hcf1, hch1⟩ := page_reclaim_sizes p marks hcf
  have hlt : 1 < p.cells.length := checkFrom_true_lt hcf
  have hlen1 := @sweepReclaim_length p.cells.length p.cells marks 1 false
  set R1 := (sweepReclaim p.cells marks 1 false p.cells.length).1 with hR1
  obtain ⟨rc, ra, rf1, rf2, rg, re, rh2⟩ :=
    @sweepCoalesce_spec R1.length R1 1 0
      (Or.inr (checkFrom_bound hcf1)) (by omega) (by omega)
  have hlen2 : (sweepCoalesce R1 1 0 R1.length).1.length = R1.length :=
    sweepCoalesce_length ..
  have hflagsfin : ∀ k, (cellAt (sweepCoalesce R1 1 0 R1.length).1 k).isAllocated =
      (cellAt R1 k).isAllocated := fun k => sweepCoalesce_flags _ _ _ _
  set fin := (sweepCoalesce R1 1 0 R1.length).1 with hfin
  -- facts about the original chain
  have hCa : 1 ≤ a := by
    have h := chain_mem_size_pos hcf hi
    omega
  have hCb : 1 ≤ b := by
    have h := chain_mem_size_pos hcf hj
    omega
  have hCiab : i + a + b ≤ p.cells.length := by
    have h := checkFrom_next_le (chain_suffix_valid hcf hj)
    omega
  have hialt : i + a < p.cells.length := chainIdxs_mem_lt hj
  -- move the hypotheses to the coalesced state
  have hiR : i ∈ chainIdxs R1 1 R1.length := by
    rw [hch1, hlen1]
    exact hi
  have hheadR : ∀ prev, prev ∈ chainIdxs R1 1 R1.length →
      prev + (cellAt R1 prev).size = i → (cellAt R1 prev).isAllocated = true := by
    intro prev hp hnext
    rw [hch1, hlen1] at hp
    rw [hsz1] at hnext
    exact hhead prev hp hnext
  have hifin : i ∈ chainIdxs fin 1 R1.length := rh2 i hiR hfree1 hheadR
  have hfreefin : (cellAt fin i).isAllocated = false := by
    rw [hflagsfin]
    exact hfree1
  have hcffull : checkFrom fin 1 R1.length = true :=
    checkFrom_mono (ra.resolve_left (by omega)) (by omega)
  have hszpos : 1 ≤ (cellAt fin i).size := chain_mem_size_pos hcffull hifin
  have hnextle : i + (cellAt fin i).size ≤ R1.length := by
    have h := checkFrom_next_le (chain_suffix_valid hcffull hifin)
    omega
  have hj'cases : i + (cellAt fin i).size = R1.length ∨
      i + (cellAt fin i).size ∈ chainIdxs fin 1 R1.length := by
    rcases chain_closure hcffull hifin with h | h
    · left
      omega
    · right
      exact h
  have hgfree := rg i hifin hfreefin
  have hfinC : ∀ k, k ∈ chainIdxs fin 1 R1.length → k ∈ chain p.cells 1 := by
    intro k hk
    have h := rf1 k hk
    rw [hch1, hlen1] at h
    exact h
  -- the merged run extends strictly past the absorbed neighbour...
  have hlb : i + a < i + (cellAt fin i).size := by
    by_contra hle
    push_neg at hle
    rcases hgfree with hg | hg
    · omega
    · rcases hj'cases with hc | hc
      · omega
      · have hC : i + (cellAt fin i).size ∈ chain p.cells 1 := hfinC _ hc
        have hge : i + a ≤ i + (cellAt fin i).size := by
          have h := chain_next_ge hi hC (by omega)
          omega
        have heq : i + (cellAt fin i).size = i + a := by omega
        rw [hflagsfin, heq, hfree2] at hg
        simp at hg
  -- ...and not past the end of the run
  have hub : i + (cellAt fin i).size ≤ i + a + b := by
    by_contra hgt
    push_neg at hgt
    rcases htail with ht | ht
    · omega
    · have htC : i + a + b ∈ chain p.cells 1 := by
        rcases chain_closure hcf hj with h | h
        · exfalso
          rw [hjb] at h
          have hoob : cellAt R1 (i + a + b) = ⟨0, false⟩ := by
            apply cellAt_oob
            omega
          rw [hoob] at ht
          simp at ht
        · rw [hjb] at h
          exact h
      have hR1t : i + a + b ∈ chainIdxs R1 1 R1.length := by
        rw [hch1, hlen1]
        exact htC
      have hfint : i + a + b ∈ chainIdxs fin 1 R1.length := rf2 _ hR1t ht
      have h := chain_next_ge hifin hfint (by omega)
      omega
  have hfinal : i + (cellAt fin i).size = i + a + b := by
    rcases hj'cases with hc | hc
    · omega
    · have hC : i + (cellAt fin i).size ∈ chain p.cells 1 := hfinC _ hc
      have h := chain_next_ge hj hC (by omega)
      omega
  have hsize : (cellAt fin i).size = a + b := by omega
  have hmerge : cellAt fin i = ⟨a + b, false⟩ := by
    have hexp : cellAt fin i = ⟨(cellAt fin i).size, (cellAt fin i).isAllocated⟩ := rfl
    rw [hexp, hsize, hfreefin]
  -- the cursor after the pass
  have hcur : (sweepCoalesce R1 1 0 R1.length).2 = 0 ∨
      ((sweepCoalesce R1 1 0 R1.length).2 ∈ chain fin 1 ∧
       (cellAt fin (sweepCoalesce R1 1 0 R1.length).2).isAllocated = false) := by
    have hmem : (sweepCoalesce R1 1 0 R1.length).2 = 0 ∨
        (sweepCoalesce R1 1 0 R1.length).2 ∈ chain fin 1 := by
      rw [re]
      unfold chain
      rw [hlen2]
      exact foldl_betterFree_mem _ _ 0
    have hfr := @sweepCoalesce_max_free R1.length R1 1 0 (Or.inl rfl)
    rcases hmem with h | h
    · exact Or.inl h
    · rcases hfr with h2 | h2
      · exact Or.inl h2
      · exact Or.inr ⟨h, h2⟩
  have hdom : ∀ j, j ∈ chain fin 1 →
      (cellAt fin j).isAllocated = false →
      (cellAt fin j).size ≤
        (cellAt fin (sweepCoalesce R1 1 0 R1.length).2).size := by
    intro j hjm hjf
    rw [re]
    apply foldl_betterFree_ge
    · have h : chain fin 1 = chainIdxs fin 1 R1.length := by
        unfold chain
        rw [hlen2]
      rw [h] at hjm
      exact hjm
    · exact hjf
  rw [sweep_eq]
  exact ⟨hmerge, hcur, hdom⟩

/-- C7 witness: a 6-cell page whose chain is 1 (allocated, marked),
2 (allocated, unmarked), 4 (allocated, unmarked); after the reclaim pass the
cells at 2 and 4 are an adjacent free pair of sizes 2 and 2 forming a maximal
run, and the sweep merges them into one free cell of size 4 at offset 2,
leaving the cursor on it. -/
theorem sweep_coalesce_pair_witness :
    Inv (⟨[⟨0, false⟩, ⟨1, true⟩, ⟨2, true⟩, ⟨0, false⟩, ⟨2, true⟩, ⟨0, false⟩],
      0⟩ : MediumPage) ∧
    (2 ∈ chain (⟨[⟨0, false⟩, ⟨1, true⟩, ⟨2, true⟩, ⟨0, false⟩, ⟨2, true⟩,
      ⟨0, false⟩], 0⟩ : MediumPage).cells 1) ∧
    ((cellAt (⟨[⟨0, false⟩, ⟨1, true⟩, ⟨2, true⟩, ⟨0, false⟩, ⟨2, true⟩,
      ⟨0, false⟩], 0⟩ : MediumPage).cells 2).size = 2) ∧
    ((cellAt (sweepReclaim (⟨[⟨0, false⟩, ⟨1, true⟩, ⟨2, true⟩, ⟨0, false⟩,
        ⟨2, true⟩, ⟨0, false⟩], 0⟩ : MediumPage).cells (fun j => decide (j = 1))
        1 false (⟨[⟨0, false⟩, ⟨1, true⟩, ⟨2, true⟩, ⟨0, false⟩, ⟨2, true⟩,
        ⟨0, false⟩], 0⟩ : MediumPage).cells.length).1 2).isAllocated = false) ∧
    (2 + 2 ∈ chain (⟨[⟨0, false⟩, ⟨1, true⟩, ⟨2, true⟩, ⟨0, false⟩, ⟨2, true⟩,
      ⟨0, false⟩], 0⟩ : MediumPage).cells 1) ∧
    ((cellAt (⟨[⟨0, false⟩, ⟨1, true⟩, ⟨2, true⟩, ⟨0, false⟩, ⟨2, true⟩,
      ⟨0, false⟩], 0⟩ : MediumPage).cells (2 + 2)).size = 2) ∧
    ((cellAt (sweepReclaim (⟨[⟨0, false⟩, ⟨1, true⟩, ⟨2, true⟩, ⟨0, false⟩,
        ⟨2, true⟩, ⟨0, false⟩], 0⟩ : MediumPage).cells (fun j => decide (j = 1))
        1 false (⟨[⟨0, false⟩, ⟨1, true⟩, ⟨2, true⟩, ⟨0, false⟩, ⟨2, true⟩,
        ⟨0, false⟩], 0⟩ : MediumPage).cells.length).1 (2 + 2)).isAllocated
      = false) ∧
    (2 + 2 + 2 = (⟨[⟨0, false⟩, ⟨1, true⟩, ⟨2, true⟩, ⟨0, false⟩, ⟨2, true⟩,
        ⟨0, false⟩], 0⟩ : MediumPage).cells.length ∨
      (cellAt (sweepReclaim (⟨[⟨0, false⟩, ⟨1, true⟩, ⟨2, true⟩, ⟨0, false⟩,
        ⟨2, true⟩, ⟨0, false⟩], 0⟩ : MediumPage).cells (fun j => decide (j = 1))
        1 false (⟨[⟨0, false⟩, ⟨1, true⟩, ⟨2, true⟩, ⟨0, false⟩, ⟨2, true⟩,
        ⟨0, false⟩], 0⟩ : MediumPage).cells.length).1 (2 + 2 + 2)).isAllocated
      = true) ∧
    (∀ prev, prev ∈ chain (⟨[⟨0, false⟩, ⟨1, true⟩, ⟨2, true⟩, ⟨0, false⟩,
        ⟨2, true⟩, ⟨0, false⟩], 0⟩ : MediumPage).cells 1 →
      prev + (cellAt (⟨[⟨0, false⟩, ⟨1, true⟩, ⟨2, true⟩, ⟨0, false⟩, ⟨2, true⟩,
        ⟨0, false⟩], 0⟩ : MediumPage).cells prev).size = 2 →
      (cellAt (sweepReclaim (⟨[⟨0, false⟩, ⟨1, true⟩, ⟨2, true⟩, ⟨0, false⟩,
        ⟨2, true⟩, ⟨0, false⟩], 0⟩ : MediumPage).cells (fun j => decide (j = 1))
        1 false (⟨[⟨0, false⟩, ⟨1, true⟩, ⟨2, true⟩, ⟨0, false⟩, ⟨2, true⟩,
        ⟨0, false⟩], 0⟩ : MediumPage).cells.length).1 prev).isAllocated
        = true) ∧
    (cellAt ((⟨[⟨0, false⟩, ⟨1, true⟩, ⟨2, true⟩, ⟨0, false⟩, ⟨2, true⟩,
        ⟨0, false⟩], 0⟩ : MediumPage).sweep (fun j => decide (j = 1))).1.cells 2
      = ⟨2 + 2, false⟩ ∧
     (((⟨[⟨0, false⟩, ⟨1, true⟩, ⟨2, true⟩, ⟨0, false⟩, ⟨2, true⟩,
        ⟨0, false⟩], 0⟩ : MediumPage).sweep
        (fun j => decide (j = 1))).1.curBlock = 0 ∨
      (((⟨[⟨0, false⟩, ⟨1, true⟩, ⟨2, true⟩, ⟨0, false⟩, ⟨2, true⟩,
          ⟨0, false⟩], 0⟩ : MediumPage).sweep
          (fun j => decide (j = 1))).1.curBlock ∈
        chain ((⟨[⟨0, false⟩, ⟨1, true⟩, ⟨2, true⟩, ⟨0, false⟩, ⟨2, true⟩,
          ⟨0, false⟩], 0⟩ : MediumPage).sweep (fun j => decide (j = 1))).1.cells
          1 ∧
       (cellAt ((⟨[⟨0, false⟩, ⟨1, true⟩, ⟨2, true⟩, ⟨0, false⟩, ⟨2, true⟩,
          ⟨0, false⟩], 0⟩ : MediumPage).sweep (fun j => decide (j = 1))).1.cells
          ((⟨[⟨0, false⟩, ⟨1, true⟩, ⟨2, true⟩, ⟨0, false⟩, ⟨2, true⟩,
          ⟨0, false⟩], 0⟩ : MediumPage).sweep
          (fun j => decide (j = 1))).1.curBlock).isAllocated = false)) ∧
     (∀ j, j ∈ chain ((⟨[⟨0, false⟩, ⟨1, true⟩, ⟨2, true⟩, ⟨0, false⟩, ⟨2, true⟩,
          ⟨0, false⟩], 0⟩ : MediumPage).sweep (fun j => decide (j = 1))).1.cells
          1 →
       (cellAt ((⟨[⟨0, false⟩, ⟨1, true⟩, ⟨2, true⟩, ⟨0, false⟩, ⟨2, true⟩,
          ⟨0, false⟩], 0⟩ : MediumPage).sweep
          (fun j => decide (j = 1))).1.cells j).isAllocated = false →
       (cellAt ((⟨[⟨0, false⟩, ⟨1, true⟩, ⟨2, true⟩, ⟨0, false⟩, ⟨2, true⟩,
          ⟨0, false⟩], 0⟩ : MediumPage).sweep
          (fun j => decide (j = 1))).1.cells j).size ≤
       (cellAt ((⟨[⟨0, false⟩, ⟨1, true⟩, ⟨2, true⟩, ⟨0, false⟩, ⟨2, true⟩,
          ⟨0, false⟩], 0⟩ : MediumPage).sweep
          (fun j => decide (j = 1))).1.cells
          ((⟨[⟨0, false⟩, ⟨1, true⟩, ⟨2, true⟩, ⟨0, false⟩, ⟨2, true⟩,
          ⟨0, false⟩], 0⟩ : MediumPage).sweep
          (fun j => decide (j = 1))).1.curBlock).size)) :=
  ⟨by decide, by decide, by decide, by decide, by decide, by decide, by decide,
   by decide, by decide,
   sweep_coalesce_pair
     ⟨[⟨0, false⟩, ⟨1, true⟩, ⟨2, true⟩, ⟨0, false⟩, ⟨2, true⟩, ⟨0, false⟩], 0⟩
     (fun j => decide (j = 1)) (by decide) 2 2 2 (by decide) (by decide)
     (by decide) (by decide) (by decide) (by decide) (by decide) (by decide)⟩

/-! ### C3: Sweep run twice -/

/-- On a chain with no free cell immediately followed by a free cell, the
coalesce pass changes nothing: every absorb loop exits at once, so the cells
come back verbatim and only the max scan runs. -/
theorem sweepCoalesce_noop :
    ∀ {fc : Nat} {cells : List Cell} {block maxIdx : Nat},
      (block = cells.length ∨ checkFrom cells block (cells.length - block) = true) →
      cells.length - block < fc →
      (∀ k, k ∈ chainIdxs cells block cells.length →
        (cellAt cells k).isAllocated = false →
        (k + (cellAt cells k).size = cells.length ∨
          (cellAt cells (k + (cellAt cells k).size)).isAllocated = true)) →
      sweepCoalesce cells block maxIdx fc =
        (cells, (chainIdxs cells block cells.length).foldl (betterFree cells) maxIdx) := by
  intro fc
  induction fc with
  | zero => intro cells block maxIdx hv hfc hadj; omega
  | succ fc' ih =>
    intro cells block maxIdx hv hfc hadj
    by_cases hbl : block = cells.length
    · rw [sweepCoalesce_succ, if_pos hbl]
      subst hbl
      rw [chainIdxs_at_end]
      rfl
    · have hv' : checkFrom cells block (cells.length - block) = true := hv.resolve_left hbl
      have hlt : block < cells.length := checkFrom_true_lt hv'
      have hszb : 1 ≤ (cellAt cells block).size := checkFrom_size_pos hv'
      have hnle : block + (cellAt cells block).size ≤ cells.length :=
        checkFrom_next_le hv'
      have hvfull : checkFrom cells block cells.length = true :=
        checkFrom_mono hv' (by omega)
      have hchaincells : chainIdxs cells block cells.length =
          block :: chainIdxs cells (block + (cellAt cells block).size) cells.length :=
        chain_cons hv'
      have hnv : block + (cellAt cells block).size = cells.length ∨
          checkFrom cells (block + (cellAt cells block).size)
            (cells.length - (block + (cellAt cells block).size)) = true := by
        rcases Nat.exists_eq_add_of_lt (show 0 < cells.length - block by omega) with ⟨m, hm0⟩
        rw [Nat.zero_add] at hm0
        have hv2 := hv'
        rw [hm0] at hv2
        rcases checkFrom_true_iff.mp hv2 with ⟨-, -, hc | hc⟩
        · exact Or.inl hc
        · exact Or.inr (checkFrom_bound hc)
      have hadj' : ∀ k, k ∈ chainIdxs cells (block + (cellAt cells block).size)
            cells.length →
          (cellAt cells k).isAllocated = false →
          (k + (cellAt cells k).size = cells.length ∨
            (cellAt cells (k + (cellAt cells k).size)).isAllocated = true) := by
        intro k hk hf
        exact hadj k (by rw [hchaincells]; exact List.mem_cons_of_mem _ hk) hf
      by_cases halloc : (cellAt cells block).isAllocated = true
      · rw [sweepCoalesce_succ, if_neg hbl, if_pos halloc]
        rw [ih hnv (by omega) hadj']
        rw [hchaincells, List.foldl_cons]
        have hbf : betterFree cells maxIdx block = maxIdx := by
          unfold betterFree
          rw [if_neg]
          intro hc
          rw [halloc] at hc
          exact Bool.noConfusion hc.1
        rw [hbf]
      · have hfree : (cellAt cells block).isAllocated = false :=
          Bool.eq_false_iff.mpr halloc
        rw [sweepCoalesce_succ, if_neg hbl, if_neg halloc]
        have habs : absorb cells block cells.length = cells := by
          cases hfu : cells.length with
          | zero => rfl
          | succ m =>
            rw [absorb_succ, if_neg]
            intro hc
            rcases hadj block (chainIdxs_self_mem hvfull) hfree with h | h
            · exact hc.1 h
            · rw [h] at hc
              exact Bool.noConfusion hc.2
        rw [habs]
        have hbf : (if (cellAt cells maxIdx).size < (cellAt cells block).size
            then block else maxIdx) = betterFree cells maxIdx block := by
          unfold betterFree
          by_cases hlt2 : (cellAt cells maxIdx).size < (cellAt cells block).size
          · rw [if_pos hlt2, if_pos ⟨hfree, hlt2⟩]
          · rw [if_neg hlt2, if_neg (fun hc => hlt2 hc.2)]
        rw [hbf]
        rw [ih hnv (by omega) hadj']
        rw [hchaincells, List.foldl_cons]

theorem mediumPage_ext {q r : MediumPage} (h1 : q.cells = r.cells)
    (h2 : q.curBlock = r.curBlock) : q = r := by
  cases q
  cases r
  cases h1
  cases h2
  rfl

/-- C3 (counterexample to the claim as stated): on the two-cell page whose
single chain cell is allocated and marked, the first `Sweep` consumes the
mark and keeps the page intact, so a second `Sweep` run on the mark state the
first one left behind (no cell newly marked or unmarked in between)
deallocates the cell, moves the cursor, and returns false instead of true. -/
theorem sweep_not_idempotent :
    Inv (⟨[⟨0, false⟩, ⟨1, true⟩], 0⟩ : MediumPage) ∧
    ¬ ((((⟨[⟨0, false⟩, ⟨1, true⟩], 0⟩ : MediumPage).sweep
          (fun j => decide (j = 1))).1.sweep
          (((⟨[⟨0, false⟩, ⟨1, true⟩], 0⟩ : MediumPage).sweep
            (fun j => decide (j = 1))).2.1)).1 =
        ((⟨[⟨0, false⟩, ⟨1, true⟩], 0⟩ : MediumPage).sweep
          (fun j => decide (j = 1))).1 ∧
       (((⟨[⟨0, false⟩, ⟨1, true⟩], 0⟩ : MediumPage).sweep
          (fun j => decide (j = 1))).1.sweep
          (((⟨[⟨0, false⟩, ⟨1, true⟩], 0⟩ : MediumPage).sweep
            (fun j => decide (j = 1))).2.1)).2.2 =
        ((⟨[⟨0, false⟩, ⟨1, true⟩], 0⟩ : MediumPage).sweep
          (fun j => decide (j = 1))).2.2) := by decide

/-- C3 (amended): calling `Sweep` twice with no intervening allocation is
idempotent when the second call observes the same mark state as the first
(the marks the first call consumed are re-established before the second
call): the page state after the second call is identical to the state after
the first, and both calls return the same boolean. -/
theorem sweep_idempotent_same_marks (p : MediumPage) (marks : Nat → Bool)
    (hInv : Inv p) :
    ((p.sweep marks).1.sweep marks).1 = (p.sweep marks).1 ∧
    ((p.sweep marks).1.sweep marks).2.2 = (p.sweep marks).2.2 := by
  obtain ⟨hsent, hcf, -⟩ := hInv
  obtain ⟨hsz1, hcf1, hch1⟩ := page_reclaim_sizes p marks hcf
  obtain ⟨ha1, hb1, hc1⟩ := page_reclaim p marks hcf
  have hlt : 1 < p.cells.length := checkFrom_true_lt hcf
  have hlen1 := @sweepReclaim_length p.cells.length p.cells marks 1 false
  set R1 := (sweepReclaim p.cells marks 1 false p.cells.length).1 with hR1
  obtain ⟨rc, ra, rf1, rf2, rg, re, rh2⟩ :=
    @sweepCoalesce_spec R1.length R1 1 0
      (Or.inr (checkFrom_bound hcf1)) (by omega) (by omega)
  have hlen2 : (sweepCoalesce R1 1 0 R1.length).1.length = R1.length :=
    sweepCoalesce_length ..
  have hflagsfin : ∀ k, (cellAt (sweepCoalesce R1 1 0 R1.length).1 k).isAllocated =
      (cellAt R1 k).isAllocated := fun k => sweepCoalesce_flags _ _ _ _
  set fin := (sweepCoalesce R1 1 0 R1.length).1 with hfin
  have hcffin1 : checkFrom fin 1 (R1.length - 1) = true := ra.resolve_left (by omega)
  have hchfin : chainIdxs fin 1 R1.length = chainIdxs fin 1 (R1.length - 1) :=
    chainIdxs_fuel_eq hcffin1 (by omega)
  -- every allocated cell of the coalesced chain is marked under the same marks
  have hmarked : ∀ k, k ∈ chainIdxs fin 1 R1.length →
      (cellAt fin k).isAllocated = true → marks k = true := by
    intro k hk hal
    have hkR := rf1 k hk
    have hkC : k ∈ chain p.cells 1 := by
      rw [hch1, hlen1] at hkR
      exact hkR
    rw [hflagsfin] at hal
    rw [(ha1 k hkC).1] at hal
    have hal' : ((cellAt p.cells k).isAllocated && marks k) = true := hal
    exact (Bool.and_eq_true_iff.mp hal').2
  -- the second reclaim pass is the identity on the cells
  have hlenfin : fin.length = (R1.length - 1) + 1 := by omega
  obtain ⟨sa, sb, sc⟩ := @sweepReclaim_spec (R1.length - 1) fin marks 1 false hcffin1
  rw [← hlenfin] at sa sb sc
  have hS1 : (sweepReclaim fin marks 1 false fin.length).1 = fin := by
    have hlenS : (sweepReclaim fin marks 1 false fin.length).1.length = fin.length :=
      sweepReclaim_length ..
    apply List.ext_getElem hlenS
    intro n hn1 hn2
    have hcell : cellAt (sweepReclaim fin marks 1 false fin.length).1 n =
        cellAt fin n := by
      by_cases hn : n ∈ chainIdxs fin 1 (R1.length - 1)
      · rw [(sa n hn).1]
        by_cases hal : (cellAt fin n).isAllocated = true
        · rw [hal, hmarked n (by rw [hchfin]; exact hn) hal]
          rw [show ((true : Bool) && true) = true from rfl, ← hal]
        · have half : (cellAt fin n).isAllocated = false := Bool.eq_false_iff.mpr hal
          rw [half, Bool.false_and, ← half]
      · exact (sb n hn).1
    rw [← List.getD_eq_getElem _ (⟨0, false⟩ : Cell) hn1,
      ← List.getD_eq_getElem _ (⟨0, false⟩ : Cell) hn2]
    exact hcell
  -- the returned boolean of the second call
  have halive2 : (sweepReclaim fin marks 1 false fin.length).2.2 =
      (chainIdxs fin 1 (R1.length - 1)).any
        (fun k => (cellAt fin k).isAllocated) := by
    rw [sc, Bool.false_or]
    apply list_any_congr
    intro x hx
    by_cases hal : (cellAt fin x).isAllocated = true
    · rw [hal, hmarked x (by rw [hchfin]; exact hx) hal]
      rfl
    · have half : (cellAt fin x).isAllocated = false := Bool.eq_false_iff.mpr hal
      rw [half, Bool.false_and]
  -- the second coalesce pass is the identity as well
  have hnoadj : ∀ k, k ∈ chainIdxs fin 1 fin.length →
      (cellAt fin k).isAllocated = false →
      (k + (cellAt fin k).size = fin.length ∨
        (cellAt fin (k + (cellAt fin k).size)).isAllocated = true) := by
    intro k hk hf
    have hk' : k ∈ chainIdxs fin 1 R1.length := by
      rw [show fin.length = R1.length from hlen2] at hk
      exact hk
    rcases rg k hk' hf with h | h
    · left
      omega
    · right
      exact h
  have hco2 : sweepCoalesce fin 1 0 fin.length =
      (fin, (chainIdxs fin 1 fin.length).foldl (betterFree fin) 0) :=
    sweepCoalesce_noop
      (Or.inr (by
        rw [show fin.length - 1 = R1.length - 1 from by omega]
        exact hcffin1))
      (by omega) hnoadj
  constructor
  · refine mediumPage_ext ?_ ?_
    · show (sweepCoalesce (sweepReclaim fin marks 1 false fin.length).1
          1 0 (sweepReclaim fin marks 1 false fin.length).1.length).1 = fin
      rw [hS1, hco2]
    · show (sweepCoalesce (sweepReclaim fin marks 1 false fin.length).1
          1 0 (sweepReclaim fin marks 1 false fin.length).1.length).2 =
        (sweepCoalesce R1 1 0 R1.length).2
      rw [hS1, hco2, re, hlen2]
  · show (sweepReclaim fin marks 1 false fin.length).2.2 =
      (sweepReclaim p.cells marks 1 false p.cells.length).2.2
    rw [halive2, hc1]
    have hfwd : ((chainIdxs fin 1 (R1.length - 1)).any
        (fun k => (cellAt fin k).isAllocated)) = true →
        ((chain p.cells 1).any
          (fun k => (cellAt p.cells k).isAllocated && marks k)) = true := by
      intro h
      rcases List.any_eq_true.mp h with ⟨k, hk, hal⟩
      have hal' : (cellAt fin k).isAllocated = true := hal
      have hkR := rf1 k (by rw [hchfin]; exact hk)
      have hkC : k ∈ chain p.cells 1 := by
        rw [hch1, hlen1] at hkR
        exact hkR
      refine List.any_eq_true.mpr ⟨k, hkC, ?_⟩
      show ((cellAt p.cells k).isAllocated && marks k) = true
      rw [hflagsfin] at hal'
      rw [(ha1 k hkC).1] at hal'
      exact hal'
    have hbwd : ((chain p.cells 1).any
        (fun k => (cellAt p.cells k).isAllocated && marks k)) = true →
        ((chainIdxs fin 1 (R1.length - 1)).any
          (fun k => (cellAt fin k).isAllocated)) = true := by
      intro h
      rcases List.any_eq_true.mp h with ⟨k, hk, hal⟩
      have hal' : ((cellAt p.cells k).isAllocated && marks k) = true := hal
      have hR1al : (cellAt R1 k).isAllocated = true := by
        rw [(ha1 k hk).1]
        exact hal'
      have hkR : k ∈ chainIdxs R1 1 R1.length := by
        rw [hch1, hlen1]
        exact hk
      have hkfin := rf2 k hkR hR1al
      refine List.any_eq_true.mpr ⟨k, by rw [← hchfin]; exact hkfin, ?_⟩
      show (cellAt fin k).isAllocated = true
      rw [hflagsfin]
      exact hR1al
    cases hA : (chainIdxs fin 1 (R1.length - 1)).any
        (fun k => (cellAt fin k).isAllocated)
    · cases hB : (chain p.cells 1).any
          (fun k => (cellAt p.cells k).isAllocated && marks k)
      · rfl
      · exact absurd (hbwd hB) (by rw [hA]; exact fun hc => Bool.noConfusion hc)
    · exact (hfwd hA).symm

/-- C3 witness for the amended statement: a four-cell page with one marked
allocated cell and one free cell; the second sweep with the same marks
leaves the page of the first sweep unchanged and returns the same boolean. -/
theorem sweep_idempotent_same_marks_witness :
    Inv (⟨[⟨0, false⟩, ⟨1, true⟩, ⟨2, false⟩, ⟨0, false⟩], 0⟩ : MediumPage) ∧
    ((((⟨[⟨0, false⟩, ⟨1, true⟩, ⟨2, false⟩, ⟨0, false⟩], 0⟩ : MediumPage).sweep
        (fun j => decide (j = 1))).1.sweep (fun j => decide (j = 1))).1 =
      ((⟨[⟨0, false⟩, ⟨1, true⟩, ⟨2, false⟩, ⟨0, false⟩], 0⟩ : MediumPage).sweep
        (fun j => decide (j = 1))).1 ∧
     (((⟨[⟨0, false⟩, ⟨1, true⟩, ⟨2, false⟩, ⟨0, false⟩], 0⟩ : MediumPage).sweep
        (fun j => decide (j = 1))).1.sweep (fun j => decide (j = 1))).2.2 =
      ((⟨[⟨0, false⟩, ⟨1, true⟩, ⟨2, false⟩, ⟨0, false⟩], 0⟩ : MediumPage).sweep
        (fun j => decide (j = 1))).2.2) :=
  ⟨by decide,
   sweep_idempotent_same_marks
     ⟨[⟨0, false⟩, ⟨1, true⟩, ⟨2, false⟩, ⟨0, false⟩], 0⟩
     (fun j => decide (j = 1)) (by decide)⟩

end MediumPageModel
